import Mathlib

/-!
Verification development for the farusql.js embedded document store
(src/farusql.js).  The JavaScript source is shallowly embedded: JS values
become the inductive type Value (undefined is represented as the absence of
a value, i.e. Option.none, matching the fact that JSON round-trips drop
undefined), documents become ordered association lists (matching JS object
property insertion order for the non-integer-like string keys used
throughout), and the mutable farusql instance becomes the Store structure,
with every method a pure function from Store to Store.  A JS method that can
throw returns Store × Except String α: the returned Store is the instance
state at the moment the exception propagates (JS exceptions do not roll back
mutations already applied to this.data).

Modelling notes, recorded once here:
- the store is modelled in its constructor configuration with no encryption
  key set (no claim configures encryption), so _encryptDocument and
  _decryptDocument are identities, exactly as in the source when
  this.encryptionKey is null;
- randomUUID / nowISO are nondeterministic inputs; each mutating operation
  takes them as explicit arguments (MutEnv);
- Number(string) is modelled on optionally signed decimal integer literals
  (other strings give NaN, modelled as Option.none); localeCompare is
  modelled as code-unit lexicographic comparison; tokenization is modelled
  for ASCII text.  Every concrete input used in a theorem below falls inside
  these fragments, where the model agrees exactly with JS;
- Array.prototype.sort is modelled as a stable insertion sort, a valid
  implementation of the ECMAScript stable-sort requirement (for comparators
  that are not consistent, ECMAScript leaves the order
  implementation-defined; the model fixes this implementation).
-/

namespace Farusql

/-- Value is the JS value model: null, booleans, numbers (integers, the only
numbers appearing in this development), strings, plain objects as ordered
key/value lists, and arrays.  undefined is Option.none one level up. -/
inductive Value where
  | vnull
  | vbool (b : Bool)
  | vnum (n : Int)
  | vstr (s : String)
  | vobj (kvs : List (String × Value))
  | varr (elems : List Value)
deriving Repr

mutual

def Value.beq : Value → Value → Bool
  | .vnull, .vnull => true
  | .vbool a, .vbool b => a == b
  | .vnum a, .vnum b => a == b
  | .vstr a, .vstr b => a == b
  | .vobj a, .vobj b => Value.beqKvs a b
  | .varr a, .varr b => Value.beqList a b
  | _, _ => false

def Value.beqKvs : List (String × Value) → List (String × Value) → Bool
  | [], [] => true
  | (k, v) :: t, (k', v') :: t' => k == k' && Value.beq v v' && Value.beqKvs t t'
  | _, _ => false

def Value.beqList : List Value → List Value → Bool
  | [], [] => true
  | v :: t, v' :: t' => Value.beq v v' && Value.beqList t t'
  | _, _ => false

end

mutual

def Value.beq_iff : ∀ a b : Value, Value.beq a b = true ↔ a = b
  | .vnull, .vnull => by simp [Value.beq]
  | .vbool _, .vbool _ => by simp [Value.beq]
  | .vnum _, .vnum _ => by simp [Value.beq]
  | .vstr _, .vstr _ => by simp [Value.beq]
  | .vobj a, .vobj b => by
      simp only [Value.beq]
      rw [Value.beqKvs_iff a b]
      simp
  | .varr a, .varr b => by
      simp only [Value.beq]
      rw [Value.beqList_iff a b]
      simp
  | .vnull, .vbool _ | .vnull, .vnum _ | .vnull, .vstr _ | .vnull, .vobj _ | .vnull, .varr _
  | .vbool _, .vnull | .vbool _, .vnum _ | .vbool _, .vstr _ | .vbool _, .vobj _ | .vbool _, .varr _
  | .vnum _, .vnull | .vnum _, .vbool _ | .vnum _, .vstr _ | .vnum _, .vobj _ | .vnum _, .varr _
  | .vstr _, .vnull | .vstr _, .vbool _ | .vstr _, .vnum _ | .vstr _, .vobj _ | .vstr _, .varr _
  | .vobj _, .vnull | .vobj _, .vbool _ | .vobj _, .vnum _ | .vobj _, .vstr _ | .vobj _, .varr _
  | .varr _, .vnull | .varr _, .vbool _ | .varr _, .vnum _ | .varr _, .vstr _ | .varr _, .vobj _ => by
      simp [Value.beq]

def Value.beqKvs_iff : ∀ a b : List (String × Value), Value.beqKvs a b = true ↔ a = b
  | [], [] => by simp [Value.beqKvs]
  | (k, v) :: t, (k', v') :: t' => by
      simp only [Value.beqKvs, Bool.and_eq_true, beq_iff_eq]
      rw [Value.beq_iff v v', Value.beqKvs_iff t t']
      constructor
      · rintro ⟨⟨h1, h2⟩, h3⟩; simp [h1, h2, h3]
      · intro h; injection h with h1 h2; cases h1; exact ⟨⟨rfl, rfl⟩, h2⟩
  | [], _ :: _ => by simp [Value.beqKvs]
  | _ :: _, [] => by simp [Value.beqKvs]

def Value.beqList_iff : ∀ a b : List Value, Value.beqList a b = true ↔ a = b
  | [], [] => by simp [Value.beqList]
  | v :: t, v' :: t' => by
      simp only [Value.beqList, Bool.and_eq_true]
      rw [Value.beq_iff v v', Value.beqList_iff t t']
      constructor
      · rintro ⟨h1, h2⟩; simp [h1, h2]
      · intro h; injection h with h1 h2; exact ⟨h1, h2⟩
  | [], _ :: _ => by simp [Value.beqList]
  | _ :: _, [] => by simp [Value.beqList]

end

instance : DecidableEq Value := fun a b => decidable_of_iff _ (Value.beq_iff a b)

/-- Doc models a JS document object: an ordered association list of
properties, as produced by object literals and preserved by JSON. -/
def Doc := List (String × Value)
deriving DecidableEq, Repr

instance : Membership (String × Value) Doc := inferInstanceAs (Membership _ (List _))

/-- Truthiness of a JS value (used by the source's `if (x)` tests). -/
def truthy : Value → Bool
  | .vnull => false
  | .vbool b => b
  | .vnum n => n != 0
  | .vstr s => s ≠ ""
  | .vobj _ => true
  | .varr _ => true

/-- Truthiness of a possibly-undefined value (undefined is falsy). -/
def optTruthy : Option Value → Bool
  | none => false
  | some v => truthy v

/-- Strict equality (===) on values.  Distinct object/array values compare
unequal: in the source every compared object operand is a separate deep
clone, so object strict equality (reference identity) is always false. -/
def strictEqV : Value → Value → Bool
  | .vnull, .vnull => true
  | .vbool a, .vbool b => a == b
  | .vnum a, .vnum b => a == b
  | .vstr a, .vstr b => a == b
  | _, _ => false

/-- Strict equality where either side may be undefined. -/
def strictEqOpt : Option Value → Option Value → Bool
  | none, none => true
  | some a, some b => strictEqV a b
  | _, _ => false

/-- ASCII whitespace for the String.prototype.trim fragment used here. -/
def isJsWsp (c : Char) : Bool := c = ' ' || c = '\t' || c = '\n' || c = '\r'

/-- trim over the character list (String functions on Substring internals do
not reduce in the kernel, so all string work here is done on toList). -/
def trimChars (cs : List Char) : List Char :=
  ((cs.dropWhile isJsWsp).reverse.dropWhile isJsWsp).reverse

/-- Code-unit lexicographic comparison of character lists (the semantics of
the JS < operator on strings, for the basic-plane text used here). -/
def charsLt : List Char → List Char → Bool
  | [], [] => false
  | [], _ :: _ => true
  | _ :: _, [] => false
  | a :: as, b :: bs => if a < b then true else if b < a then false else charsLt as bs

def strLt (a b : String) : Bool := charsLt a.toList b.toList

def charsPrefix : List Char → List Char → Bool
  | [], _ => true
  | _ :: _, [] => false
  | a :: as, b :: bs => a = b && charsPrefix as bs

/-- Substring occurrence test (String.prototype.includes). -/
def charsInfix (n : List Char) : List Char → Bool
  | [] => n.isEmpty
  | c :: t => charsPrefix n (c :: t) || charsInfix n t

/-- toLowerCase over the character list (ASCII fragment). -/
def strToLower (s : String) : String := (s.toList.map Char.toLower).asString

/-- Number(s) for a string, on the fragment of optionally signed decimal
integer literals (with surrounding whitespace); other strings give NaN,
modelled as none.  The empty string gives 0, as in JS. -/
def jsToNumS (s : String) : Option Int :=
  let t := trimChars s.toList
  if t = [] then some 0
  else
    let (neg, digits) :=
      match t with
      | '-' :: rest => (true, rest)
      | _ => (false, t)
    if digits ≠ [] ∧ digits.all Char.isDigit then
      let n : Nat := digits.foldl (fun acc c => acc * 10 + (c.toNat - 48)) 0
      some (if neg then -(n : Int) else (n : Int))
    else none

mutual

/-- String(v) / Array.prototype.toString for a JS value. -/
def toStringJS : Value → String
  | .vnull => "null"
  | .vbool b => if b then "true" else "false"
  | .vnum n => toString n
  | .vstr s => s
  | .vobj _ => "[object Object]"
  | .varr es => arrJoin es

/-- Array join with ",", where null/undefined elements print as empty. -/
def arrJoin : List Value → String
  | [] => ""
  | [v] => arrElemStr v
  | v :: rest => arrElemStr v ++ "," ++ arrJoin rest

/-- One array element as joined text: null prints empty, the rest as
String() (the match mirrors toStringJS so the recursion stays structural). -/
def arrElemStr : Value → String
  | .vnull => ""
  | .vbool b => if b then "true" else "false"
  | .vnum n => toString n
  | .vstr s => s
  | .vobj _ => "[object Object]"
  | .varr es => arrJoin es

end

/-- ToPrimitive for values appearing as == / < operands: plain objects and
arrays convert via their default toString; primitives are unchanged. -/
def toPrimV : Value → Value
  | .vobj kvs => .vstr (toStringJS (.vobj kvs))
  | .varr es => .vstr (toStringJS (.varr es))
  | v => v

def boolInt (b : Bool) : Int := if b then 1 else 0

/-- ToNumber of a possibly-undefined value (after ToPrimitive); none is NaN. -/
def jsToNum : Option Value → Option Int
  | none => none
  | some .vnull => some 0
  | some (.vbool b) => some (boolInt b)
  | some (.vnum n) => some n
  | some (.vstr s) => jsToNumS s
  | some v => jsToNumS (toStringJS (toPrimV v))

/-- Loose equality (==) between two defined values, following the abstract
equality algorithm on the modelled value fragment. -/
def looseEqV (a b : Value) : Bool :=
  match toPrimV a, toPrimV b with
  | .vnull, .vnull => true
  | .vnull, _ => false
  | _, .vnull => false
  | .vbool x, .vbool y => x == y
  | .vnum x, .vnum y => x == y
  | .vstr x, .vstr y => x == y
  | .vnum x, .vstr s => jsToNumS s == some x
  | .vstr s, .vnum x => jsToNumS s == some x
  | .vbool x, .vnum y => boolInt x == y
  | .vnum y, .vbool x => boolInt x == y
  | .vbool x, .vstr s => jsToNumS s == some (boolInt x)
  | .vstr s, .vbool x => jsToNumS s == some (boolInt x)
  | _, _ => false

/-- Loose equality docValue == value where the document side may be
undefined (undefined == null holds, undefined == anything else fails). -/
def looseEq : Option Value → Value → Bool
  | none, .vnull => true
  | none, _ => false
  | some a, b => looseEqV a b

/-- Abstract relational comparison a < b; none models the undefined result
produced when a NaN is involved. -/
def jsLtOpt (a b : Option Value) : Option Bool :=
  let pa := a.map toPrimV
  let pb := b.map toPrimV
  match pa, pb with
  | some (.vstr x), some (.vstr y) => some (strLt x y)
  | _, _ =>
    match jsToNum pa, jsToNum pb with
    | some x, some y => some (decide (x < y))
    | _, _ => none

end Farusql

namespace Farusql

/-- Lookup of a property in an object's ordered key/value list. -/
def lookupKv : List (String × Value) → String → Option Value
  | [], _ => none
  | (k, v) :: t, key => if k = key then some v else lookupKv t key

/-- Property assignment obj[k] = v: an existing key is updated in place
(keeping its position), a new key is appended, matching JS property
insertion order. -/
def setKv : List (String × Value) → String → Value → List (String × Value)
  | [], key, v => [(key, v)]
  | (k, w) :: t, key, v => if k = key then (k, v) :: t else (k, w) :: setKv t key v

/-- One step of the reduce in _getValueByDot: `o ? o[k] : undefined`.
Property access on primitives yields undefined (string character indexing
is not modelled; no dot path in this development enters a string). -/
def dotStep (o : Option Value) (k : String) : Option Value :=
  if optTruthy o then
    match o with
    | some (.vobj kvs) => lookupKv kvs k
    | some (.varr es) =>
      match jsToNumS k with
      | some n => if 0 ≤ n then es.get? n.toNat else none
      | none => none
    | _ => none
  else none

/-- key.split(".") over the character list. -/
def splitDot : List Char → List Char → List String
  | [], acc => [acc.reverse.asString]
  | c :: rest, acc =>
    if c = '.' then acc.reverse.asString :: splitDot rest [] else splitDot rest (c :: acc)

/-- _getValueByDot: key.split(".").reduce((o, k) => (o ? o[k] : undefined), obj). -/
def getValueByDot (doc : Doc) (key : String) : Option Value :=
  (splitDot key.toList []).foldl dotStep (some (.vobj doc))

mutual

/-- One assignment step of _deepMerge: a plain-object source value is merged
recursively into the (object-coerced) target slot, anything else (including
null and arrays) overwrites the slot. -/
def deepMergeInto : List (String × Value) → String → Value → List (String × Value)
  | t, k, .vobj svs =>
      let tvs := match lookupKv t k with
        | some (.vobj tvs) => tvs
        | _ => []
      setKv t k (.vobj (deepMergeKvs tvs svs))
  | t, k, v => setKv t k v

/-- _deepMerge on objects: source keys are walked in order. -/
def deepMergeKvs : List (String × Value) → List (String × Value) → List (String × Value)
  | t, [] => t
  | t, (k, v) :: rest => deepMergeKvs (deepMergeInto t k v) rest

end

/-- _deepMerge(target, source) at document level. -/
def deepMerge (target source : Doc) : Doc := deepMergeKvs target source

/-- JS word characters (for \b boundaries): ASCII letters, digits, underscore. -/
def wordChar (c : Char) : Bool := c.isAlphanum || c = '_'

/-- Maximal word-character runs of a character list. -/
def wordRuns : List Char → List Char → List (List Char)
  | [], acc => if acc.isEmpty then [] else [acc.reverse]
  | c :: rest, acc =>
    if wordChar c then wordRuns rest (c :: acc)
    else if acc.isEmpty then wordRuns rest [] else acc.reverse :: wordRuns rest []

/-- A word run matches \b\p{L}[\p{L}\p{N}]*\b exactly when it starts with a
letter and contains no underscore (an underscore is a word character, so a
boundary can never fall beside it, and a leading digit blocks the match). -/
def isTokenRun (r : List Char) : Bool :=
  match r with
  | [] => false
  | c :: _ => c.isAlpha && r.all Char.isAlphanum

/-- First-occurrence de-duplication (Set insertion order). -/
def dedupFirst (l : List String) (seen : List String) : List String :=
  match l with
  | [] => []
  | x :: t => if x ∈ seen then dedupFirst t seen else x :: dedupFirst t (x :: seen)

/-- _tokenizeText: lowercase, take \b\p{L}[\p{L}\p{N}]*\b matches, de-duplicate
keeping first occurrences (ASCII fragment). -/
def tokenizeText (s : String) : List String :=
  dedupFirst (((wordRuns (s.toList.map Char.toLower) []).filter isTokenRun).map List.asString) []

def jsonEscape : List Char → String
  | [] => ""
  | c :: rest =>
    (if c = '"' then "\\\"" else if c = '\\' then "\\\\" else String.singleton c) ++ jsonEscape rest

mutual

/-- JSON.stringify for index keys built from object values (string escaping
restricted to quote and backslash; no such value carries control characters
in this development). -/
def jsonStringify : Value → String
  | .vnull => "null"
  | .vbool b => if b then "true" else "false"
  | .vnum n => toString n
  | .vstr s => "\"" ++ jsonEscape s.toList ++ "\""
  | .varr es => "[" ++ jsonArr es ++ "]"
  | .vobj kvs => "\x7b" ++ jsonObj kvs ++ "\x7d"

def jsonArr : List Value → String
  | [] => ""
  | [v] => jsonStringify v
  | v :: rest => jsonStringify v ++ "," ++ jsonArr rest

def jsonObj : List (String × Value) → String
  | [] => ""
  | [(k, v)] => "\"" ++ jsonEscape k.toList ++ "\":" ++ jsonStringify v
  | (k, v) :: rest => "\"" ++ jsonEscape k.toList ++ "\":" ++ jsonStringify v ++ "," ++ jsonObj rest

end

/-- _serializeIndexValue: booleans to "1"/"0", null and undefined to "NULL",
objects to JSON, anything else via String(). -/
def serializeIndexValue : Option Value → String
  | some (.vbool b) => if b then "1" else "0"
  | none => "NULL"
  | some .vnull => "NULL"
  | some (.vobj kvs) => jsonStringify (.vobj kvs)
  | some (.varr es) => jsonStringify (.varr es)
  | some (.vnum n) => toString n
  | some (.vstr s) => s

/-- Array.prototype.includes comparison (SameValueZero; distinct clones of
objects never match, see strictEqV). -/
def svzEq (a : Value) (b : Option Value) : Bool := strictEqOpt (some a) b

/-- Substring containment for the like operator. -/
def strContains (hay needle : String) : Bool := charsInfix needle.toList hay.toList

/-- _testCondition(doc, condition) for a single field/operator/value triple. -/
def testCondition (doc : Doc) (field operator : String) (value : Value) : Bool :=
  let docValue := getValueByDot doc field
  if operator = "=" ∨ operator = "==" then looseEq docValue value
  else if operator = "!=" ∨ operator = "<>" then ! looseEq docValue value
  else if operator = ">" then jsLtOpt (some value) docValue == some true
  else if operator = ">=" then jsLtOpt docValue (some value) == some false
  else if operator = "<" then jsLtOpt docValue (some value) == some true
  else if operator = "<=" then jsLtOpt (some value) docValue == some false
  else if operator = "in" then
    match value with
    | .varr vs => vs.any (fun v => svzEq v docValue)
    | _ => false
  else if operator = "like" then
    match docValue, value with
    | some (.vstr d), .vstr v => strContains (strToLower d) (strToLower v)
    | _, _ => false
  else false

end Farusql

namespace Farusql

/-- Truthiness of a nullable string (empty strings are falsy). -/
def strOptTruthy : Option String → Bool
  | none => false
  | some s => s ≠ ""

/-- Append-if-absent, modelling Set.add insertion order. -/
def addUniq (l : List String) (x : String) : List String :=
  if x ∈ l then l else l ++ [x]

/-- One stored secondary index: field paths plus composite-key → pushed
document-id list (ids are the pushed doc._id values; an id slot is
Option Value because JS would push undefined for an id-less document). -/
structure IndexRec where
  fields : List String
  map : List (String × List (Option Value))
deriving DecidableEq, Repr

/-- One element of this.wheres: a single condition or an {or: [...]} group. -/
inductive Cond where
  | single (field operator : String) (value : Value)
  | orGroup (conds : List (String × String × Value))
deriving DecidableEq, Repr

/-- One transaction-log record. -/
inductive LogEntry where
  | insertE (doc : Doc)
  | insertManyE (docs : List Doc)
  | updateE (docs : List Doc)
  | deleteE (id : Value) (isSoft : Bool)
deriving DecidableEq, Repr

/-- Nondeterministic inputs consumed by one mutation: the id randomUUID
would return, the revision id, and the nowISO timestamp. -/
structure MutEnv where
  newId : String
  revId : String
  now : String
deriving DecidableEq, Repr

/-- The farusql instance state (Node.js configuration, no encryption key),
together with the modelled environment: the three backing files, and the
list of change notifications delivered to listeners so far (events). -/
structure Store where
  data : List Doc
  dataLoaded : Bool
  indexes : List (String × IndexRec)
  indexesLoaded : Bool
  indexedFields : List String
  fullTextIndex : List (String × List String)
  fullTextIndexLoaded : Bool
  fullTextIndexedFields : List String
  wheres : List Cond
  limitCount : Option Int
  skipCount : Int
  orderByField : Option String
  orderByDirection : String
  validationCallbacks : List (Doc → Bool)
  cacheKeys : List String
  transactionLock : Option Value
  inTransaction : Bool
  transactionLog : List LogEntry
  softDeleteEnabled : Bool
  showDeleted : Bool
  events : List (Doc × String)
  fileData : Option (List Doc)
  fileIndexes : Option (List (String × IndexRec))
  fileFullText : Option (List (String × List String))
  snapData : Option (List Doc)
  snapIndexes : Option (List (String × IndexRec))
  snapFullText : Option (List (String × List String))

/-- Constructor state over empty backing files. -/
def initStore : Store where
  data := []
  dataLoaded := false
  indexes := []
  indexesLoaded := false
  indexedFields := []
  fullTextIndex := []
  fullTextIndexLoaded := false
  fullTextIndexedFields := []
  wheres := []
  limitCount := none
  skipCount := 0
  orderByField := none
  orderByDirection := "asc"
  validationCallbacks := []
  cacheKeys := []
  transactionLock := none
  inTransaction := false
  transactionLog := []
  softDeleteEnabled := false
  showDeleted := false
  events := []
  fileData := none
  fileIndexes := none
  fileFullText := none
  snapData := none
  snapIndexes := none
  snapFullText := none

/-- doc._id. -/
def idOf (d : Doc) : Option Value := lookupKv d "_id"

/-- d._deleted is truthy. -/
def isDeletedDoc (d : Doc) : Bool := optTruthy (lookupKv d "_deleted")

/-- loadData: read the documents file once (missing file means empty
collection) and, when soft deletes hide tombstones, drop them. -/
def loadData (s : Store) : Store :=
  if s.dataLoaded then s
  else
    let content := s.fileData
    let d :=
      match content with
      | some ds =>
        if s.softDeleteEnabled ∧ ¬s.showDeleted then ds.filter (fun d => ¬isDeletedDoc d) else ds
      | none => []
    { s with data := d, dataLoaded := true }

/-- saveData: overwrite the documents file with the in-memory collection. -/
def saveData (s : Store) : Store := { s with fileData := some s.data }

/-- loadIndexes, also re-deriving the indexedFields set. -/
def loadIndexes (s : Store) : Store :=
  if s.indexesLoaded then s
  else
    let idx := s.fileIndexes.getD []
    let flds := idx.foldl (fun acc kv => kv.2.fields.foldl addUniq acc) s.indexedFields
    { s with indexes := idx, indexedFields := flds, indexesLoaded := true }

def saveIndexes (s : Store) : Store := { s with fileIndexes := some s.indexes }

def loadFullTextIndex (s : Store) : Store :=
  if s.fullTextIndexLoaded then s
  else { s with fullTextIndex := s.fileFullText.getD [], fullTextIndexLoaded := true }

def saveFullTextIndex (s : Store) : Store := { s with fileFullText := some s.fullTextIndex }

/-- _invalidateCache() with no key: clear the internal cache. -/
def invalidateCache (s : Store) : Store := { s with cacheKeys := [] }

/-- _resetQuery. -/
def resetQuery (s : Store) : Store :=
  { s with wheres := [], limitCount := none, skipCount := 0,
           orderByField := none, orderByDirection := "asc", showDeleted := false }

/-- where(field, operator, value). -/
def whereQ (s : Store) (field operator : String) (value : Value) : Store :=
  { s with wheres := s.wheres ++ [.single field operator value] }

/-- orWhere(conditions). -/
def orWhereQ (s : Store) (conds : List (String × String × Value)) : Store :=
  { s with wheres := s.wheres ++ [.orGroup conds] }

/-- whereIn(field, values). -/
def whereInQ (s : Store) (field : String) (values : List Value) : Store :=
  { s with wheres := s.wheres ++ [.single field "in" (.varr values)] }

/-- whereLike(field, value). -/
def whereLikeQ (s : Store) (field : String) (value : Value) : Store :=
  { s with wheres := s.wheres ++ [.single field "like" value] }

def limitQ (s : Store) (count : Int) : Store := { s with limitCount := some count }

def skipQ (s : Store) (count : Int) : Store := { s with skipCount := count }

def orderByQ (s : Store) (field : String) (direction : String) : Store :=
  { s with orderByField := some field, orderByDirection := strToLower direction }

/-- enableSoftDeletes / onlyDeleted / withTrashed. -/
def enableSoftDeletes (s : Store) (enable : Bool) : Store := { s with softDeleteEnabled := enable }

def onlyDeleted (s : Store) : Store := { s with showDeleted := true }

def withTrashed (s : Store) : Store := { s with showDeleted := true }

/-- _triggerChange: deliver a change notification unless a transaction is
active (the listener loop swallows listener exceptions, so delivery always
appends exactly one event per call). -/
def triggerChange (s : Store) (d : Doc) (ty : String) : Store :=
  if ¬s.inTransaction then { s with events := s.events ++ [(d, ty)] } else s

/-- validateDocument succeeds when every registered callback returns true. -/
def validateAll (s : Store) (d : Doc) : Bool := s.validationCallbacks.all (fun cb => cb d)

/-- _addTimestamps. -/
def addTimestamps (d : Doc) (isNew : Bool) (now : String) : Doc :=
  let d := if isNew then setKv d "_created" (.vstr now) else d
  setKv d "_updated" (.vstr now)

/-- _addRevision: append an action record to the _revisions array. -/
def addRevision (d : Doc) (action : String) (revId now : String) : Doc :=
  let revs :=
    match lookupKv d "_revisions" with
    | some (.varr rs) => rs
    | _ => []
  setKv d "_revisions"
    (.varr (revs ++ [.vobj [("_revisionId", .vstr revId), ("_timestamp", .vstr now), ("_action", .vstr action)]]))

end Farusql

namespace Farusql

/-- Result record of explainQuery(). -/
structure QueryPlan where
  queryConditions : List Cond
  planOrderByField : Option String
  planSkipCount : Int
  planLimitCount : Option Int
  whereFields : List String
  availableIndexes : List String
  usedIndexes : List String
  planSoftDeleteEnabled : Bool
  showingDeleted : Bool
deriving Repr

/-- Fields referenced by the current conditions, in Set insertion order. -/
def condFields (wheres : List Cond) : List String :=
  wheres.foldl
    (fun acc c =>
      match c with
      | .orGroup cs => cs.foldl (fun acc c => addUniq acc c.1) acc
      | .single f _ _ => addUniq acc f)
    []

/-- explainQuery(): referenced fields, available index names, and the
indexes whose field lists touch a referenced field. -/
def explainQuery (s : Store) : QueryPlan :=
  let fields := condFields s.wheres
  let used := s.indexes.foldl
    (fun acc kv => if kv.2.fields.any (fun f => f ∈ fields) then acc ++ [kv.1] else acc) []
  { queryConditions := s.wheres
    planOrderByField := s.orderByField
    planSkipCount := s.skipCount
    planLimitCount := s.limitCount
    whereFields := fields
    availableIndexes := s.indexes.map Prod.fst
    usedIndexes := used
    planSoftDeleteEnabled := s.softDeleteEnabled
    showingDeleted := s.showDeleted }

/-- The orderBy comparator of get(): strict equality gives 0, null/undefined
sort last ascending (first descending), strings use localeCompare (modelled
as code-unit comparison), anything else the JS < relational comparison. -/
def cmpDocs (direction field : String) (a b : Doc) : Int :=
  let valA := getValueByDot a field
  let valB := getValueByDot b field
  if strictEqOpt valA valB then 0
  else if valA = none ∨ valA = some .vnull then (if direction = "asc" then 1 else -1)
  else if valB = none ∨ valB = some .vnull then (if direction = "asc" then -1 else 1)
  else
    match valA, valB with
    | some (.vstr x), some (.vstr y) =>
      if direction = "asc" then (if strLt x y then -1 else if x = y then 0 else 1)
      else (if strLt y x then -1 else if y = x then 0 else 1)
    | _, _ =>
      if direction = "asc" then (if jsLtOpt valA valB == some true then -1 else 1)
      else (if jsLtOpt valB valA == some true then -1 else 1)

/-- Insert x after every element it does not compare strictly below. -/
def insertSorted (cmp : Doc → Doc → Int) (x : Doc) : List Doc → List Doc
  | [] => [x]
  | y :: ys => if cmp x y < 0 then x :: y :: ys else y :: insertSorted cmp x ys

/-- Array.prototype.sort modelled as stable insertion sort (see header). -/
def stableSort (cmp : Doc → Doc → Int) (l : List Doc) : List Doc :=
  l.foldl (fun acc x => insertSorted cmp x acc) []

/-- Array.prototype.slice(start) for a positive start. -/
def jsSliceFrom (l : List Doc) (n : Int) : List Doc :=
  if n < 0 then l.drop (l.length - min l.length (-n).toNat) else l.drop n.toNat

/-- Array.prototype.slice(0, end), where a negative end counts from the end. -/
def jsSliceTake (l : List Doc) (m : Int) : List Doc :=
  if m < 0 then l.take (l.length - min l.length (-m).toNat) else l.take m.toNat

/-- Evaluation of one element of this.wheres against a document: an OR group
holds when some sub-condition holds, a single condition via _testCondition. -/
def testWhole (d : Doc) (c : Cond) : Bool :=
  match c with
  | .orGroup cs => cs.any (fun sc => testCondition d sc.1 sc.2.1 sc.2.2)
  | .single f op v => testCondition d f op v

/-- The tombstone-visibility filter shared by get() and count(). -/
def visibleData (s : Store) : List Doc :=
  if s.softDeleteEnabled ∧ ¬s.showDeleted then s.data.filter (fun d => ¬isDeletedDoc d)
  else s.data

/-- Association-list lookup by exact key. -/
def lookupAssoc {α : Type} : List (String × α) → String → Option α
  | [], _ => none
  | (k, v) :: t, key => if k = key then some v else lookupAssoc t key

/-- The index prefilter step of get(): find the first single equality
condition on an index-covered field; if the index has an entry for the
serialized query value, keep only documents whose _id is in that entry and
drop that condition (by position, mirroring removal by object identity). -/
def indexPrefilter (s : Store) (usedIndexes : List String) (results : List Doc) :
    Store × List Doc :=
  if s.wheres ≠ [] ∧ usedIndexes ≠ [] then
    match s.wheres.findIdx? (fun c =>
      match c with
      | .single f op _ => f ∈ usedIndexes ∧ (op = "=" ∨ op = "==")
      | .orGroup _ => false) with
    | some i =>
      match s.wheres.get? i with
      | some (.single f _ v) =>
        let indexKey := serializeIndexValue (some v)
        match lookupAssoc s.indexes f with
        | some idx =>
          match lookupAssoc idx.map indexKey with
          | some ids =>
            ({ s with wheres := s.wheres.eraseIdx i },
             results.filter (fun d => ids.any (fun i => strictEqOpt i (idOf d))))
          | none => (s, results)
        | none => (s, results)
      | _ => (s, results)
    | none => (s, results)
  else (s, results)

/-- get(): load, clone, tombstone filter, index prefilter, predicate filter,
orderBy, skip, limit, decrypt (identity here), reset query state. -/
def get (s : Store) : Store × List Doc :=
  let s := loadIndexes (loadData s)
  let results := s.data
  let plan := explainQuery s
  let results :=
    if s.softDeleteEnabled ∧ ¬s.showDeleted then results.filter (fun d => ¬isDeletedDoc d)
    else results
  let (s, results) := indexPrefilter s plan.usedIndexes results
  let results := results.filter (fun d => s.wheres.all (testWhole d))
  let results :=
    if strOptTruthy s.orderByField then
      stableSort (cmpDocs s.orderByDirection (s.orderByField.getD "")) results
    else results
  let results := if s.skipCount > 0 then jsSliceFrom results s.skipCount else results
  let results :=
    match s.limitCount with
    | some m => jsSliceTake results m
    | none => results
  (resetQuery s, results)

/-- count(): load, tombstone filter, predicate filter (no index use), reset. -/
def count (s : Store) : Store × Nat :=
  let s := loadData s
  let results := visibleData s
  let results := results.filter (fun d => s.wheres.all (testWhole d))
  (resetQuery s, results.length)

end Farusql

namespace Farusql

/-- _getCompositeIndexValue: serialized field values joined with a bar; any
null/undefined field gives no key at all. -/
def getCompositeIndexValue (d : Doc) (fields : List String) : Option String :=
  let vals := fields.map (fun f => getValueByDot d f)
  if vals.any (fun v => v = none ∨ v = some .vnull) then none
  else some (String.intercalate "|" (vals.map serializeIndexValue))

/-- Push an id under a composite key (existing keys keep their position). -/
def pushIdTo (map : List (String × List (Option Value))) (key : String) (i : Option Value) :
    List (String × List (Option Value)) :=
  match map with
  | [] => [(key, [i])]
  | (k, ids) :: t => if k = key then (k, ids ++ [i]) :: t else (k, ids) :: pushIdTo t key i

/-- _updateIndexesOnInsert. -/
def updateIndexesOnInsert (idxs : List (String × IndexRec)) (d : Doc) :
    List (String × IndexRec) :=
  idxs.map (fun kv =>
    match getCompositeIndexValue d kv.2.fields with
    | none => kv
    | some key => (kv.1, { kv.2 with map := pushIdTo kv.2.map key (idOf d) }))

/-- Remove an id from a composite key's list, pruning the key when empty. -/
def removeIdFrom (map : List (String × List (Option Value))) (key : String) (i : Option Value) :
    List (String × List (Option Value)) :=
  map.foldr
    (fun (kv : String × List (Option Value)) acc =>
      if kv.1 = key then
        let ids := kv.2.filter (fun x => ¬strictEqOpt x i)
        if ids.length = 0 then acc else (kv.1, ids) :: acc
      else kv :: acc) []

/-- _updateIndexesOnUpdate: when the composite key changed, remove the old
entry (when the old key is truthy and present) and add the new one. -/
def updateIndexesOnUpdate (idxs : List (String × IndexRec)) (oldDoc newDoc : Doc) :
    List (String × IndexRec) :=
  idxs.map (fun kv =>
    let oldKey := getCompositeIndexValue oldDoc kv.2.fields
    let newKey := getCompositeIndexValue newDoc kv.2.fields
    if oldKey = newKey then kv
    else
      let m := kv.2.map
      let m :=
        match oldKey with
        | some ok => if ok ≠ "" ∧ (lookupAssoc m ok).isSome then removeIdFrom m ok (idOf oldDoc) else m
        | none => m
      let m :=
        match newKey with
        | some nk => if nk ≠ "" then pushIdTo m nk (idOf newDoc) else m
        | none => m
      (kv.1, { kv.2 with map := m }))

/-- _updateIndexesOnDelete: drop the deleted ids everywhere, pruning empties. -/
def updateIndexesOnDelete (idxs : List (String × IndexRec)) (deletedIds : List (Option Value)) :
    List (String × IndexRec) :=
  idxs.map (fun kv =>
    let m := kv.2.map.foldr
      (fun (ent : String × List (Option Value)) acc =>
        let ids := ent.2.filter (fun i => ¬deletedIds.any (fun del => strictEqOpt del i))
        if ids.length = 0 then acc else (ent.1, ids) :: acc) []
    (kv.1, { kv.2 with map := m }))

/-- The collection scan of createIndex: group ids by composite key. -/
def buildIndexMap (fields : List String) :
    List Doc → List (String × List (Option Value)) → List (String × List (Option Value))
  | [], m => m
  | d :: rest, m =>
    match getCompositeIndexValue d fields with
    | some key => buildIndexMap fields rest (pushIdTo m key (idOf d))
    | none => buildIndexMap fields rest m

/-- createIndex(fields, name): (re)build a named index by one scan of the
collection (the default name joins the field paths with underscores). -/
def createIndex (s : Store) (fields : List String) (name : Option String) : Store :=
  let s := loadIndexes (loadData s)
  let indexName := if strOptTruthy name then name.getD "" else String.intercalate "_" fields
  let idx : IndexRec := { fields := fields, map := buildIndexMap fields s.data [] }
  let s := { s with
    indexes :=
      match lookupAssoc s.indexes indexName with
      | some _ => s.indexes.map (fun kv => if kv.1 = indexName then (kv.1, idx) else kv)
      | none => s.indexes ++ [(indexName, idx)]
    indexedFields := fields.foldl addUniq s.indexedFields }
  saveIndexes s

/-- Full-text posting-map insert for one token (object key semantics: a
present key is left in place, a new one is appended). -/
def ftAdd (ft : List (String × List String)) (w docKey : String) : List (String × List String) :=
  match ft with
  | [] => [(w, [docKey])]
  | (k, ids) :: t =>
    if k = w then (k, if docKey ∈ ids then ids else ids ++ [docKey]) :: t
    else (k, ids) :: ftAdd t w docKey

/-- _indexDocumentFullText: add the document id under every token of every
indexed string field (an id-less document is skipped). -/
def indexDocumentFullText (ft : List (String × List String)) (d : Doc) (fields : List String) :
    List (String × List String) :=
  if ¬optTruthy (idOf d) then ft
  else
    let docKey := toStringJS ((idOf d).getD .vnull)
    fields.foldl
      (fun ft f =>
        match getValueByDot d f with
        | some (.vstr v) => (tokenizeText v).foldl (fun ft w => ftAdd ft w docKey) ft
        | _ => ft) ft

/-- _removeDocumentFromFullTextIndex. -/
def removeDocFT (ft : List (String × List String)) (idv : Option Value) :
    List (String × List String) :=
  let docKey := match idv with | some v => toStringJS v | none => "undefined"
  ft.foldr
    (fun (ent : String × List String) acc =>
      let ids := ent.2.filter (fun i => i ≠ docKey)
      if ids.length = 0 then acc else (ent.1, ids) :: acc) []

/-- createFullTextIndex(fields): record the field set and rebuild the
inverted index from the whole collection. -/
def createFullTextIndex (s : Store) (fields : List String) : Store :=
  let s := loadFullTextIndex (loadData s)
  let s := { s with fullTextIndexedFields := dedupFirst fields [] }
  let ft := s.data.foldl (fun ft d => indexDocumentFullText ft d s.fullTextIndexedFields) []
  saveFullTextIndex { s with fullTextIndex := ft }

/-- The token loop of fullTextSearch: none as second argument means no token
processed yet; an absent token or an empty intersection short-circuits. -/
def ftsIds (ft : List (String × List String)) :
    List String → Option (List String) → List String
  | [], matching => matching.getD []
  | t :: rest, matching =>
    match lookupAssoc ft t with
    | none => []
    | some ids =>
      match matching with
      | none => ftsIds ft rest (some ids)
      | some m =>
        let inter := m.filter (fun i => i ∈ ids)
        if inter = [] then [] else ftsIds ft rest (some inter)

/-- fullTextSearch(query): tokenize, intersect posting sets, then map the
surviving ids to soft-delete-filtered documents. -/
def fullTextSearch (s : Store) (query : String) : Store × List Doc :=
  let s := loadFullTextIndex (loadData s)
  let queryTokens := tokenizeText query
  if queryTokens = [] then (s, [])
  else
    let ids := ftsIds s.fullTextIndex queryTokens none
    let results :=
      (ids.filterMap (fun i => s.data.find? (fun d => strictEqOpt (idOf d) (some (.vstr i))))).filter
        (fun d => ¬s.softDeleteEnabled ∨ s.showDeleted ∨ ¬isDeletedDoc d)
    (s, results)

end Farusql

namespace Farusql

/-- loadData; loadIndexes; loadFullTextIndex, the prologue of every mutator. -/
def loadAll (s : Store) : Store := loadFullTextIndex (loadIndexes (loadData s))

/-- saveData; saveIndexes; saveFullTextIndex; _invalidateCache, the
persistence epilogue of every non-transactional mutator. -/
def persistAll (s : Store) : Store := invalidateCache (saveFullTextIndex (saveIndexes (saveData s)))

/-- The shared document-preparation steps of insert/insertMany, after
validation: assign _id when missing, stamp timestamps, append the insert
revision, push, and update both indexes. -/
def insertCore (e : MutEnv) (s : Store) (doc : Doc) : Store × Doc :=
  let newDoc := if optTruthy (lookupKv doc "_id") then doc else setKv doc "_id" (.vstr e.newId)
  let newDoc := addTimestamps newDoc true e.now
  let newDoc := addRevision newDoc "insert" e.revId e.now
  let s := { s with data := s.data ++ [newDoc] }
  let s := { s with indexes := updateIndexesOnInsert s.indexes newDoc }
  let s := { s with fullTextIndex := indexDocumentFullText s.fullTextIndex newDoc s.fullTextIndexedFields }
  (s, newDoc)

/-- insert(doc). -/
def insert (e : MutEnv) (s : Store) (doc : Doc) : Store × Except String Doc :=
  let s := loadAll s
  if s.inTransaction ∧ optTruthy s.transactionLock then
    (s, .error "Cannot insert: Another transaction holds a lock.")
  else if ¬validateAll s doc then (s, .error "Validation failed")
  else
    let (s, newDoc) := insertCore e s doc
    let s :=
      if ¬s.inTransaction then persistAll s
      else { s with transactionLog := s.transactionLog ++ [.insertE newDoc] }
    let s := triggerChange s newDoc "insert"
    (s, .ok newDoc)

/-- The per-document loop of insertMany; a validation failure propagates
immediately, keeping the documents already pushed. -/
def insertManyLoop (es : Nat → MutEnv) :
    Nat → Store → List Doc → List Doc → Store × List Doc × Option String
  | _, s, acc, [] => (s, acc, none)
  | k, s, acc, doc :: rest =>
    if ¬validateAll s doc then (s, acc, some "Validation failed")
    else
      let (s, newDoc) := insertCore (es k) s doc
      insertManyLoop es (k + 1) s (acc ++ [newDoc]) rest

/-- insertMany(docs). -/
def insertMany (es : Nat → MutEnv) (s : Store) (docs : List Doc) :
    Store × Except String (List Doc) :=
  let s := loadAll s
  if s.inTransaction ∧ optTruthy s.transactionLock then
    (s, .error "Cannot insertMany: Another transaction holds a lock.")
  else
    match insertManyLoop es 0 s [] docs with
    | (s, _, some e) => (s, .error e)
    | (s, inserted, none) =>
      let s :=
        if ¬s.inTransaction then persistAll s
        else { s with transactionLog := s.transactionLog ++ [.insertManyE inserted] }
      let s := inserted.foldl (fun s d => triggerChange s d "insert") s
      (s, .ok inserted)

/-- The per-matched-document loop of update(): lock check, in-place deep
merge, timestamps and revision (all visible in this.data before
validation), then validation, then index and full-text refresh.  A thrown
error keeps every mutation already applied. -/
def updateLoop (es : Nat → MutEnv) (updates : Doc) :
    Nat → Store → List Doc → List Doc → Store × List Doc × Option String
  | _, s, acc, [] => (s, acc, none)
  | k, s, acc, doc :: rest =>
    if s.inTransaction ∧ optTruthy s.transactionLock ∧
        ¬strictEqOpt s.transactionLock (idOf doc) then
      (s, acc, some "Cannot update document: Transaction lock held by another document.")
    else
      match s.data.findIdx? (fun d => strictEqOpt (idOf d) (idOf doc)) with
      | none => updateLoop es updates (k + 1) s acc rest
      | some i =>
        let oldDoc := doc
        let merged := deepMerge ((s.data.get? i).getD []) updates
        let merged := addTimestamps merged false (es k).now
        let merged := addRevision merged "update" (es k).revId (es k).now
        let s := { s with data := s.data.set i merged }
        if ¬validateAll s merged then (s, acc, some "Validation failed")
        else
          let s := { s with indexes := updateIndexesOnUpdate s.indexes oldDoc merged }
          let ft := indexDocumentFullText (removeDocFT s.fullTextIndex (idOf oldDoc)) merged s.fullTextIndexedFields
          let s := { s with fullTextIndex := ft }
          updateLoop es updates (k + 1) s (acc ++ [merged]) rest

/-- update(query, updates): select via the full get() pipeline (consuming
the query state), then apply the loop; persistence, notifications, and the
trailing query reset happen only when no error was thrown. -/
def update (es : Nat → MutEnv) (s : Store) (updates : Doc) :
    Store × Except String (List Doc) :=
  let s := loadAll s
  let (s, matching) := get s
  match updateLoop es updates 0 s [] matching with
  | (s, _, some e) => (s, .error e)
  | (s, updated, none) =>
    let s :=
      if ¬s.inTransaction then persistAll s
      else { s with transactionLog := s.transactionLog ++ [.updateE updated] }
    let s := updated.foldl (fun s d => triggerChange s d "update") s
    (resetQuery s, .ok updated)

/-- The shared epilogue of delete(): persist or log, then notify with the
pre-deletion snapshot. -/
def deleteTail (s : Store) (target : Value) (deletedDoc : Doc) : Store × Except String Bool :=
  let s :=
    if ¬s.inTransaction then persistAll s
    else { s with transactionLog := s.transactionLog ++ [.deleteE target s.softDeleteEnabled] }
  let s := triggerChange s deletedDoc (if s.softDeleteEnabled then "soft_delete" else "delete")
  (s, .ok true)

/-- delete(_id): soft delete marks the tombstone in place; hard delete
splices the document out (before its own lock check, which is unreachable
because of the method-level check) and purges both indexes. -/
def delete (e : MutEnv) (s : Store) (target : Value) : Store × Except String Bool :=
  let s := loadAll s
  if s.inTransaction ∧ optTruthy s.transactionLock then
    (s, .error "Cannot delete: Another transaction holds a lock.")
  else if s.softDeleteEnabled then
    match s.data.findIdx? (fun d => strictEqOpt (idOf d) (some target) ∧ ¬isDeletedDoc d) with
    | none => (s, .ok false)
    | some i =>
      let deletedDoc := (s.data.get? i).getD []
      if s.inTransaction ∧ optTruthy s.transactionLock ∧
          ¬strictEqOpt s.transactionLock (idOf deletedDoc) then
        (s, .error "Cannot soft delete document: Transaction lock held by another document.")
      else
        let d := setKv ((s.data.get? i).getD []) "_deleted" (.vbool true)
        let d := setKv d "_updated" (.vstr e.now)
        let d := addRevision d "soft_delete" e.revId e.now
        let s := { s with data := s.data.set i d }
        deleteTail s target deletedDoc
  else
    match s.data.findIdx? (fun d => strictEqOpt (idOf d) (some target)) with
    | none => (s, .ok false)
    | some i =>
      let deletedDoc := (s.data.get? i).getD []
      let s := { s with data := s.data.eraseIdx i }
      if s.inTransaction ∧ optTruthy s.transactionLock ∧
          ¬strictEqOpt s.transactionLock (idOf deletedDoc) then
        (s, .error "Cannot hard delete document: Transaction lock held by another document.")
      else
        let s := { s with indexes := updateIndexesOnDelete s.indexes [idOf deletedDoc] }
        let s := { s with fullTextIndex := removeDocFT s.fullTextIndex (idOf deletedDoc) }
        deleteTail s target deletedDoc

/-- _endTransaction. -/
def endTransaction (s : Store) : Store :=
  { s with inTransaction := false, transactionLock := none, transactionLog := [],
           snapData := none, snapIndexes := none, snapFullText := none }

/-- beginTransaction(_id): set the flag and lock, clear the log, load, and
snapshot all three in-memory stores. -/
def beginTransaction (s : Store) (scope : Option Value) : Store × Except String Unit :=
  if s.inTransaction then (s, .error "A transaction is already active.")
  else
    let s := { s with inTransaction := true, transactionLock := scope, transactionLog := [] }
    let s := loadAll s
    let s := { s with snapData := some s.data, snapIndexes := some s.indexes,
                      snapFullText := some s.fullTextIndex }
    (s, .ok ())

/-- The replay body of commit(): notify for one logged record. -/
def commitStep (s : Store) (log : LogEntry) : Store :=
  match log with
  | .insertE d => triggerChange s d "insert"
  | .insertManyE ds => ds.foldl (fun s d => triggerChange s d "insert") s
  | .updateE ds => ds.foldl (fun s d => triggerChange s d "update") s
  | .deleteE id isSoft =>
    triggerChange s [("_id", id)] (if isSoft then "soft_delete" else "delete")

/-- commit(): persist all three stores, clear the cache, replay the log
through _triggerChange, and end the transaction (the replay runs before
_endTransaction clears the inTransaction flag). -/
def commit (s : Store) : Store × Except String Unit :=
  if ¬s.inTransaction then (s, .error "No active transaction to commit.")
  else
    let s := persistAll s
    let s := s.transactionLog.foldl commitStep s
    (endTransaction s, .ok ())

/-- rollback(): restore the begin-time snapshots (always present while a
transaction is active), persist the restored state, clear the cache, end. -/
def rollback (s : Store) : Store × Except String Unit :=
  if ¬s.inTransaction then (s, .error "No active transaction to rollback.")
  else
    let s := { s with data := s.snapData.getD [], indexes := s.snapIndexes.getD [],
                      fullTextIndex := s.snapFullText.getD [] }
    let s := persistAll s
    (endTransaction s, .ok ())

/-- Result record of paginate(). -/
structure PageResult where
  pageData : List Doc
  currentPage : Int
  perPage : Int
  totalCount : Nat
  totalPages : Int
  hasMorePages : Bool
  nextPage : Option Int
  prevPage : Option Int
deriving Repr

/-- paginate(page, perPage): clamp both to at least 1, count first (which
resets the query state), then limit/skip and execute. -/
def paginate (s : Store) (page perPage : Int) : Store × PageResult :=
  let page := if page < 1 then 1 else page
  let perPage := if perPage < 1 then 1 else perPage
  let (s, totalCount) := count s
  let totalPages : Int := ((totalCount : Int) + perPage - 1) / perPage
  let s := skipQ (limitQ s perPage) ((page - 1) * perPage)
  let (s, d) := get s
  (s, { pageData := d
        currentPage := page
        perPage := perPage
        totalCount := totalCount
        totalPages := totalPages
        hasMorePages := page < totalPages
        nextPage := if page < totalPages then some (page + 1) else none
        prevPage := if page > 1 then some (page - 1) else none })

end Farusql

namespace Farusql

/-! Specification-side definitions and concrete scenario states.  Everything
from here up to the theorems section is still a definition. -/

/-- Specification-side reading of the equality-index optimization claim: the
set a full scan of the collection, without any index, returns for the single
predicate where(f, "=", v): soft-delete-visible documents whose field value
is loosely equal to v. -/
def fullScanEquality (s : Store) (f : String) (v : Value) : List Doc :=
  (visibleData s).filter (fun d => looseEq (getValueByDot d f) v)

/-- A document contains a token in one of the indexed text fields. -/
def docHasToken (d : Doc) (fields : List String) (t : String) : Bool :=
  fields.any (fun f =>
    match getValueByDot d f with
    | some (.vstr v) => t ∈ tokenizeText v
    | _ => false)

/-- A document field value counts as null-ish for ordering (null or undefined). -/
def nullishV (v : Option Value) : Bool := v = none || v = some .vnull

/-- Field values that are consistently comparable under the get() ordering
comparator: integers or null. -/
def numOrNull (v : Option Value) : Prop := (∃ n, v = some (.vnum n)) ∨ v = some .vnull

/-- The sort key of a numOrNull field value: its number, or none for null
(which the comparator sends to the end in ascending order). -/
def ordKey (v : Option Value) : Option Int :=
  match v with
  | some (.vnum n) => some n
  | _ => none

/-- The total-order comparison the get() comparator implements on numOrNull
keys (ascending; null-ish keys compare greatest). -/
def kcmp : Option Int → Option Int → Int
  | some a, some b => if a = b then 0 else if a < b then -1 else 1
  | some _, none => -1
  | none, some _ => 1
  | none, none => 0

/-- One client-visible mutation of the claim C6 operation language; update
carries the query conditions its builder chain would have set. -/
inductive COp where
  | opInsert (e : MutEnv) (doc : Doc)
  | opInsertMany (es : Nat → MutEnv) (docs : List Doc)
  | opUpdate (es : Nat → MutEnv) (conds : List Cond) (patch : Doc)
  | opDelete (e : MutEnv) (target : Value)

/-- Run one mutation, keeping the state JS would keep when it throws. -/
def applyOp (s : Store) : COp → Store
  | .opInsert e d => (insert e s d).1
  | .opInsertMany es ds => (insertMany es s ds).1
  | .opUpdate es conds patch => (update es { s with wheres := conds } patch).1
  | .opDelete e t => (delete e s t).1

def runOps (s : Store) (ops : List COp) : Store := ops.foldl applyOp s

/-- The _id insert would store for a document: the explicit one when truthy,
otherwise the freshly generated string. -/
def insertedId (e : MutEnv) (d : Doc) : Option Value :=
  if optTruthy (lookupKv d "_id") then lookupKv d "_id" else some (.vstr e.newId)

/-- The ids an insertMany call would assign, in order. -/
def assignedIds (es : Nat → MutEnv) (docs : List Doc) : List (Option Value) :=
  (List.range docs.length).zipWith (fun k d => insertedId (es k) d) docs

/-- assignedIds, shifted to start the oracle sequence at position k (the
recursive form the insertMany loop follows). -/
def assignedIdsFrom (es : Nat → MutEnv) : Nat → List Doc → List (Option Value)
  | _, [] => []
  | k, d :: rest => insertedId (es k) d :: assignedIdsFrom es (k + 1) rest

/-- The freshness/no-_id-patch side conditions of the amended claim C6. -/
def opOK (s : Store) : COp → Prop
  | .opInsert e d => insertedId e d ∉ s.data.map idOf
  | .opInsertMany es ds => (s.data.map idOf ++ assignedIds es ds).Nodup
  | .opUpdate _ _ patch => lookupKv patch "_id" = none
  | .opDelete _ _ => True

def OpsOK (s : Store) : List COp → Prop
  | [] => True
  | op :: rest => opOK s op ∧ OpsOK (applyOp s op) rest

/-- Ids can only be appended (inserts) or have one entry removed (hard
delete); no surviving document's id changes. -/
def idsEvolve (old new : List (Option Value)) : Prop :=
  (∃ tail, new = old ++ tail) ∨ (∃ i, new = old.eraseIdx i)

/-- The loaded-state invariant threaded through operation sequences. -/
def LoadedInv (s : Store) : Prop :=
  s.dataLoaded = true ∧ s.indexesLoaded = true ∧ s.fullTextIndexLoaded = true

/-- Soft-delete-visible documents under the default (reset) visibility flag,
as get() sees them after count() reset the query state. -/
def visibleDefault (s : Store) : List Doc :=
  if s.softDeleteEnabled then s.data.filter (fun d => ¬isDeletedDoc d) else s.data

/-- An already-loaded in-memory store over the given collection, in the
default configuration. -/
def baseStore (ds : List Doc) : Store :=
  { initStore with data := ds, dataLoaded := true, indexesLoaded := true,
                   fullTextIndexLoaded := true }

/-- Concrete nondeterministic inputs for the scenario states. -/
def envA : MutEnv := { newId := "u1", revId := "r1", now := "t1" }

def envB : MutEnv := { newId := "u2", revId := "r2", now := "t2" }

def envC : Nat → MutEnv := fun _ => { newId := "u9", revId := "r9", now := "t9" }

/-- Claim C1 scenario: a transaction that buffered exactly one insert. -/
def c1tx : Store := (insert envA (beginTransaction initStore none).1 [("x", .vnum 1)]).1

/-- Claim C3 scenario: transaction scoped to "a" over two documents, then an
update whose query matches both. -/
def c3tx : Store :=
  (beginTransaction
    (baseStore [[("_id", .vstr "a"), ("v", .vnum 1)], [("_id", .vstr "b"), ("v", .vnum 1)]])
    (some (.vstr "a"))).1

def c3run : Store × Except String (List Doc) := update envC c3tx [("v", .vnum 5)]

/-- Claim C4 scenario: a validator that rejects documents carrying both
poison and marked, over one clean and one poisoned document. -/
def c4val : Doc → Bool :=
  fun d => !(optTruthy (lookupKv d "poison") && optTruthy (lookupKv d "marked"))

def c4store : Store :=
  { baseStore [[("_id", .vstr "a")], [("_id", .vstr "b"), ("poison", .vbool true)]] with
    validationCallbacks := [c4val] }

def c4run : Store × Except String (List Doc) := update envC c4store [("marked", .vbool true)]

/-- Claim C5 scenario: one document storing the string "NULL" under f, with
a default-named index on f, queried with where(f, "=", null). -/
def c5store : Store := createIndex (baseStore [[("_id", .vstr "a"), ("f", .vstr "NULL")]]) ["f"] none

def c5run : Store × List Doc := get (whereQ c5store "f" "=" .vnull)

/-- Scenario for the amended C5 witness: two docs with string ids and string field values. -/
def c5wds : List Doc :=
  [[("_id", .vstr "a"), ("f", .vstr "x")], [("_id", .vstr "b"), ("f", .vstr "y")]]

/-- Claim C6 scenario: two inserts supplying the same explicit _id, and an
update whose patch rewrites _id. -/
def c6dup : Store := (insert envB (insert envA (baseStore []) [("_id", .vstr "x")]).1 [("_id", .vstr "x")]).1

def c6upd : Store × Except String (List Doc) :=
  update envC (whereQ (baseStore [[("_id", .vstr "q")]]) "_id" "=" (.vstr "q")) [("_id", .vstr "z")]

/-- Scenario for the amended C6 witness: one fresh insert, then a hard delete. -/
def c6wstore : Store := baseStore [[("_id", .vstr "a"), ("n", .vnum 0)]]

def c6wops : List COp := [.opInsert envA [("n", .vnum 1)], .opDelete envB (.vstr "a")]

/-- Claim C7 scenario: the spec's two-document full-text example. -/
def c7ds : List Doc :=
  [[("_id", .vstr "d1"), ("txt", .vstr "alpha beta")],
   [("_id", .vstr "d2"), ("txt", .vstr "beta gamma")]]

def c7store : Store := createFullTextIndex (baseStore c7ds) ["txt"]

/-- Claim C8 scenarios: the spec's [1, null, 2] example, and four documents
whose a-values "09", 5, "1", "09" make the comparator cyclic. -/
def c8ex : Store := baseStore [[("a", .vnum 1)], [("a", .vnull)], [("a", .vnum 2)]]

def c8cex : Store :=
  baseStore [[("_id", .vstr "i1"), ("a", .vstr "09")],
             [("_id", .vstr "i2"), ("a", .vnum 5)],
             [("_id", .vstr "i3"), ("a", .vstr "1")],
             [("_id", .vstr "i4"), ("a", .vstr "09")]]

/-- Claim C9 scenario: three documents, two matching k = 1. -/
def c9store : Store :=
  baseStore [[("_id", .vstr "p1"), ("k", .vnum 1)], [("_id", .vstr "p2"), ("k", .vnum 2)],
             [("_id", .vstr "p3"), ("k", .vnum 1)]]

/-- The state invariant holding throughout an unscoped transaction begun on
base: flag up, no lock, snapshots of base's three stores, no new events. -/
def TxInv (base st : Store) : Prop :=
  st.inTransaction = true ∧ st.transactionLock = none ∧
  st.snapData = some base.data ∧ st.snapIndexes = some base.indexes ∧
  st.snapFullText = some base.fullTextIndex ∧ st.events = base.events ∧ LoadedInv st

/-- Claim C10 scenario: a stored file holding one live and one tombstoned
document, soft deletes enabled, tombstones hidden. -/
def c10file : List Doc := [[("_id", .vstr "x")], [("_id", .vstr "y"), ("_deleted", .vbool true)]]

def c10store : Store := { initStore with fileData := some c10file, softDeleteEnabled := true }

end Farusql

namespace Farusql

/-! Theorems.  Every definition is above; from here on only theorems. -/

theorem loadData_loaded (s : Store) (h : s.dataLoaded = true) : loadData s = s := by
  simp [loadData, h]

theorem loadIndexes_loaded (s : Store) (h : s.indexesLoaded = true) : loadIndexes s = s := by
  simp [loadIndexes, h]

theorem loadFullTextIndex_loaded (s : Store) (h : s.fullTextIndexLoaded = true) :
    loadFullTextIndex s = s := by
  simp [loadFullTextIndex, h]

theorem loadAll_loaded (s : Store) (h : LoadedInv s) : loadAll s = s := by
  obtain ⟨h1, h2, h3⟩ := h
  rw [loadAll, loadData_loaded s h1, loadIndexes_loaded s h2, loadFullTextIndex_loaded s h3]

theorem triggerChange_inTx (s : Store) (d : Doc) (ty : String) (h : s.inTransaction = true) :
    triggerChange s d ty = s := by
  simp [triggerChange, h]

theorem foldl_trigger_id (ty : String) (l : List Doc) (s : Store) (h : s.inTransaction = true) :
    l.foldl (fun s d => triggerChange s d ty) s = s := by
  induction l generalizing s with
  | nil => rfl
  | cons d t ih => simp only [List.foldl_cons, triggerChange_inTx s d ty h]; exact ih s h

theorem commitStep_inTx (s : Store) (log : LogEntry) (h : s.inTransaction = true) :
    commitStep s log = s := by
  cases log with
  | insertE d => exact triggerChange_inTx s d "insert" h
  | insertManyE ds => exact foldl_trigger_id "insert" ds s h
  | updateE ds => exact foldl_trigger_id "update" ds s h
  | deleteE id isSoft => exact triggerChange_inTx s _ _ h

theorem foldl_commitStep_id (logs : List LogEntry) (s : Store) (h : s.inTransaction = true) :
    logs.foldl commitStep s = s := by
  induction logs generalizing s with
  | nil => rfl
  | cons lg t ih => simp only [List.foldl_cons, commitStep_inTx s lg h]; exact ih s h

theorem persistAll_events (s : Store) : (persistAll s).events = s.events := by
  simp [persistAll, saveData, saveIndexes, saveFullTextIndex, invalidateCache]

theorem persistAll_inTx (s : Store) : (persistAll s).inTransaction = s.inTransaction := by
  simp [persistAll, saveData, saveIndexes, saveFullTextIndex, invalidateCache]

/-- C1 (code_bug): the spec says commit() fires exactly one change
notification per buffered mutation in log order, and the source's own
comments state the same intent, but _triggerChange suppresses delivery
while this.inTransaction is true and _endTransaction only clears that flag
in the finally block after the replay loop, so a commit never delivers any
notification: generally commit leaves the delivered-events list unchanged,
and in the concrete one-buffered-insert scenario the log has one entry yet
zero notifications are delivered. -/
theorem commit_replay_fires_no_notifications :
    (∀ s : Store, s.inTransaction = true →
      (commit s).1.events = s.events ∧ (commit s).2 = .ok ()) ∧
    c1tx.transactionLog.length = 1 ∧ c1tx.events = [] ∧
    (commit c1tx).2 = .ok () ∧ (commit c1tx).1.events = [] := by
  constructor
  · intro s h
    unfold commit
    simp only [h, not_true_eq_false, if_false]
    have hp : (persistAll s).inTransaction = true := by rw [persistAll_inTx]; exact h
    rw [foldl_commitStep_id _ _ hp]
    exact ⟨by simp [endTransaction, persistAll_events], by trivial⟩
  · exact ⟨by decide, by decide, by rfl, by decide⟩

theorem commit_replay_fires_no_notifications_witness :
    c1tx.inTransaction = true ∧ (commit c1tx).1.events = c1tx.events :=
  ⟨by decide, (commit_replay_fires_no_notifications.1 c1tx (by decide)).1⟩

theorem insert_tx_shape (e : MutEnv) (doc : Doc) (st : Store)
    (h1 : st.inTransaction = true) (h2 : st.transactionLock = none)
    (hL : LoadedInv st) (hv : validateAll st doc = true) :
    (insert e st doc).1 =
      (let nd := addRevision (addTimestamps
          (if optTruthy (lookupKv doc "_id") then doc else setKv doc "_id" (.vstr e.newId))
          true e.now) "insert" e.revId e.now
      { st with data := st.data ++ [nd],
                indexes := updateIndexesOnInsert st.indexes nd,
                fullTextIndex := indexDocumentFullText st.fullTextIndex nd st.fullTextIndexedFields,
                transactionLog := st.transactionLog ++ [.insertE nd] }) := by
  unfold insert insertCore triggerChange
  rw [loadAll_loaded st hL]
  simp [h1, h2, hv, optTruthy]

theorem insert_tx_shape_fail (e : MutEnv) (doc : Doc) (st : Store)
    (h1 : st.inTransaction = true) (h2 : st.transactionLock = none)
    (hL : LoadedInv st) (hv : validateAll st doc = false) :
    (insert e st doc).1 = st := by
  unfold insert
  rw [loadAll_loaded st hL]
  simp [h1, h2, hv, optTruthy]

theorem insert_txInv (base : Store) (e : MutEnv) (doc : Doc) (st : Store)
    (h : TxInv base st) : TxInv base (insert e st doc).1 := by
  obtain ⟨h1, h2, h3, h4, h5, h6, hL⟩ := h
  by_cases hv : validateAll st doc
  · rw [insert_tx_shape e doc st h1 h2 hL hv]
    exact ⟨h1, h2, h3, h4, h5, h6, hL⟩
  · rw [insert_tx_shape_fail e doc st h1 h2 hL (by simpa using hv)]
    exact ⟨h1, h2, h3, h4, h5, h6, hL⟩

theorem foldl_insert_txInv (base : Store) (ops : List (MutEnv × Doc)) (st : Store)
    (h : TxInv base st) :
    TxInv base (ops.foldl (fun st p => (insert p.1 st p.2).1) st) := by
  induction ops generalizing st with
  | nil => exact h
  | cons p t ih => exact ih _ (insert_txInv base p.1 p.2 st h)

theorem beginTransaction_none (s : Store) (hTx : s.inTransaction = false) (hL : LoadedInv s) :
    (beginTransaction s none).1 =
      { s with inTransaction := true, transactionLock := none, transactionLog := [],
               snapData := some s.data, snapIndexes := some s.indexes,
               snapFullText := some s.fullTextIndex } ∧
    (beginTransaction s none).2 = .ok () := by
  unfold beginTransaction
  have : loadAll { s with inTransaction := true, transactionLock := none, transactionLog := [] }
      = { s with inTransaction := true, transactionLock := none, transactionLog := [] } :=
    loadAll_loaded _ ⟨hL.1, hL.2.1, hL.2.2⟩
  simp [hTx, this]

/-- C2 (confirmed): beginTransaction() followed by any sequence of insert
calls followed by rollback() restores the in-memory collection, secondary
indexes, and full-text index exactly to their pre-transaction values, and
the list of delivered change notifications is unchanged at the end (it only
ever grows, so none fired in between). -/
theorem rollback_restores_pre_transaction_state (s : Store) (ops : List (MutEnv × Doc))
    (hTx : s.inTransaction = false) (hL : LoadedInv s) :
    (beginTransaction s none).2 = .ok () ∧
    (rollback (ops.foldl (fun st p => (insert p.1 st p.2).1) (beginTransaction s none).1)).2 = .ok () ∧
    (rollback (ops.foldl (fun st p => (insert p.1 st p.2).1) (beginTransaction s none).1)).1.data = s.data ∧
    (rollback (ops.foldl (fun st p => (insert p.1 st p.2).1) (beginTransaction s none).1)).1.indexes = s.indexes ∧
    (rollback (ops.foldl (fun st p => (insert p.1 st p.2).1) (beginTransaction s none).1)).1.fullTextIndex = s.fullTextIndex ∧
    (rollback (ops.foldl (fun st p => (insert p.1 st p.2).1) (beginTransaction s none).1)).1.events = s.events := by
  obtain ⟨hb, hok⟩ := beginTransaction_none s hTx hL
  have hinv0 : TxInv s (beginTransaction s none).1 := by
    rw [hb]
    exact ⟨rfl, rfl, rfl, rfl, rfl, rfl, hL.1, hL.2.1, hL.2.2⟩
  obtain ⟨h1, h2, h3, h4, h5, h6, hLs⟩ := foldl_insert_txInv s ops _ hinv0
  refine ⟨hok, ?_, ?_, ?_, ?_, ?_⟩
  all_goals
    unfold rollback
    simp [h1, h3, h4, h5, h6, persistAll, saveData, saveIndexes, saveFullTextIndex,
          invalidateCache, endTransaction]

theorem rollback_restores_pre_transaction_state_witness :
    (rollback ([((envB : MutEnv), ([("b", Value.vnum 2)] : Doc))].foldl
      (fun st p => (insert p.1 st p.2).1)
      (beginTransaction (baseStore [[("a", Value.vnum 1)]]) none).1)).1.data =
      (baseStore [[("a", Value.vnum 1)]]).data :=
  (rollback_restores_pre_transaction_state (baseStore [[("a", Value.vnum 1)]])
    [(envB, [("b", Value.vnum 2)])] rfl ⟨rfl, rfl, rfl⟩).2.2.1

/-- C10 (confirmed): with soft deletes enabled and tombstones hidden, the
first load from storage drops every document with a truthy _deleted flag
from the in-memory collection, and the next save rewrites the data file
without them, so no tombstone survives a reload-then-save cycle. -/
theorem tombstones_dropped_on_reload_then_save (stored : List Doc) (s : Store)
    (hfile : s.fileData = some stored) (hnl : s.dataLoaded = false)
    (hsd : s.softDeleteEnabled = true) (hshow : s.showDeleted = false) :
    (loadData s).data = stored.filter (fun d => ¬isDeletedDoc d) ∧
    (saveData (loadData s)).fileData = some (stored.filter (fun d => ¬isDeletedDoc d)) ∧
    ∀ d ∈ ((saveData (loadData s)).fileData.getD []), ¬isDeletedDoc d := by
  have hl : loadData s =
      { s with data := stored.filter (fun d => ¬isDeletedDoc d), dataLoaded := true } := by
    simp [loadData, hfile, hnl, hsd, hshow]
  refine ⟨by rw [hl], by rw [hl]; simp [saveData], ?_⟩
  rw [hl]; simp [saveData]

theorem tombstones_dropped_on_reload_then_save_witness :
    (loadData c10store).data = c10file.filter (fun d => ¬isDeletedDoc d) ∧
    (saveData (loadData c10store)).fileData = some [[("_id", Value.vstr "x")]] :=
  ⟨(tombstones_dropped_on_reload_then_save c10file c10store rfl rfl rfl rfl).1,
   by
    have h := (tombstones_dropped_on_reload_then_save c10file c10store rfl rfl rfl rfl).2.1
    rw [h]; decide⟩

end Farusql

namespace Farusql

theorem indexPrefilter_fst (s : Store) (u : List String) (r : List Doc) :
    ∃ w, (indexPrefilter s u r).1 = { s with wheres := w } := by
  unfold indexPrefilter
  dsimp only
  repeat' split
  all_goals exact ⟨_, rfl⟩

theorem resetQuery_wheres_irrel (s : Store) (w : List Cond) :
    resetQuery { s with wheres := w } = resetQuery s := rfl

theorem resetQuery_indexPrefilter (s : Store) (u : List String) (r : List Doc) :
    resetQuery (indexPrefilter s u r).1 = resetQuery s := by
  obtain ⟨w, hw⟩ := indexPrefilter_fst s u r
  rw [hw, resetQuery_wheres_irrel]

theorem get_state (s : Store) (hL : LoadedInv s) : (get s).1 = resetQuery s := by
  unfold get
  rw [loadData_loaded s hL.1, loadIndexes_loaded s hL.2.1]
  exact resetQuery_indexPrefilter s _ _

theorem insert_lock_error (e : MutEnv) (s : Store) (doc : Doc)
    (h1 : s.inTransaction = true) (h2 : optTruthy s.transactionLock = true)
    (hL : LoadedInv s) :
    insert e s doc = (s, .error "Cannot insert: Another transaction holds a lock.") := by
  unfold insert
  rw [loadAll_loaded s hL]
  simp [h1, h2]

theorem delete_lock_error (e : MutEnv) (s : Store) (target : Value)
    (h1 : s.inTransaction = true) (h2 : optTruthy s.transactionLock = true)
    (hL : LoadedInv s) :
    delete e s target = (s, .error "Cannot delete: Another transaction holds a lock.") := by
  unfold delete
  rw [loadAll_loaded s hL]
  simp [h1, h2]

theorem update_conflict_first (es : Nat → MutEnv) (s : Store) (updates : Doc) (d : Doc)
    (rest : List Doc) (hL : LoadedInv s) (hm : (get s).2 = d :: rest)
    (h1 : s.inTransaction = true) (h2 : optTruthy s.transactionLock = true)
    (h3 : strictEqOpt s.transactionLock (idOf d) = false) :
    (update es s updates).2 =
      .error "Cannot update document: Transaction lock held by another document." ∧
    (update es s updates).1.data = s.data ∧
    (update es s updates).1.indexes = s.indexes ∧
    (update es s updates).1.fullTextIndex = s.fullTextIndex := by
  have hget : get s = (resetQuery s, d :: rest) := Prod.ext (get_state s hL) hm
  unfold update
  rw [loadAll_loaded s hL]
  simp only [hget]
  unfold updateLoop
  simp [resetQuery, h1, h2, h3]

/-- C3 (corrected, counterexample): with a transaction scoped to document
"a" over the two documents a and b, an update whose query matches both
raises the lock-contention error as the claim says, but the collection is
not left unchanged: document a, matched before the conflicting document b,
keeps its deep-merged update. -/
theorem scoped_lock_update_mutates_state_counterexample :
    c3run.2 = .error "Cannot update document: Transaction lock held by another document." ∧
    c3run.1.data ≠ c3tx.data := ⟨by rfl, by decide⟩

/-- C3 (amended): a mutation conflicting with an active scoped transaction
raises a lock-contention error; insert and delete leave the collection,
indexes, and full-text index completely unchanged (delete's method-level
check rejects every delete under a scoped lock, before any mutation), but
update only leaves them unchanged when the conflicting document is the
first match: documents matched earlier in the same call keep their updates,
as the concrete scenario shows (a's value is 5, b's still 1). -/
theorem scoped_lock_conflicts_amended :
    (∀ (e : MutEnv) (s : Store) (doc : Doc), s.inTransaction = true →
      optTruthy s.transactionLock = true → LoadedInv s →
      insert e s doc = (s, .error "Cannot insert: Another transaction holds a lock.")) ∧
    (∀ (e : MutEnv) (s : Store) (target : Value), s.inTransaction = true →
      optTruthy s.transactionLock = true → LoadedInv s →
      delete e s target = (s, .error "Cannot delete: Another transaction holds a lock.")) ∧
    (∀ (es : Nat → MutEnv) (s : Store) (updates d : Doc) (rest : List Doc), LoadedInv s →
      (get s).2 = d :: rest → s.inTransaction = true → optTruthy s.transactionLock = true →
      strictEqOpt s.transactionLock (idOf d) = false →
      (update es s updates).2.isOk = false ∧ (update es s updates).1.data = s.data ∧
      (update es s updates).1.indexes = s.indexes ∧
      (update es s updates).1.fullTextIndex = s.fullTextIndex) ∧
    (lookupKv ((c3run.1.data.get? 0).getD []) "v" = some (.vnum 5) ∧
     lookupKv ((c3run.1.data.get? 1).getD []) "v" = some (.vnum 1) ∧
     c3run.2.isOk = false) := by
  refine ⟨fun e s doc h1 h2 hL => insert_lock_error e s doc h1 h2 hL,
          fun e s t h1 h2 hL => delete_lock_error e s t h1 h2 hL,
          fun es s up d rest hL hm h1 h2 h3 => ?_,
          by decide, by decide, by decide⟩
  obtain ⟨he, hd, hi, hf⟩ := update_conflict_first es s up d rest hL hm h1 h2 h3
  exact ⟨by rw [he]; rfl, hd, hi, hf⟩

theorem scoped_lock_conflicts_amended_witness :
    insert envB c3tx [("_id", Value.vstr "c")] =
      (c3tx, .error "Cannot insert: Another transaction holds a lock.") ∧
    delete envB c3tx (.vstr "b") =
      (c3tx, .error "Cannot delete: Another transaction holds a lock.") :=
  ⟨scoped_lock_conflicts_amended.1 envB c3tx [("_id", Value.vstr "c")]
     (by decide) (by decide) ⟨by decide, by decide, by decide⟩,
   scoped_lock_conflicts_amended.2.1 envB c3tx (.vstr "b")
     (by decide) (by decide) ⟨by decide, by decide, by decide⟩⟩

end Farusql

namespace Farusql

theorem updateLoop_files_events (es : Nat → MutEnv) (updates : Doc) :
    ∀ (docs : List Doc) (k : Nat) (st : Store) (acc : List Doc),
      (updateLoop es updates k st acc docs).1.fileData = st.fileData ∧
      (updateLoop es updates k st acc docs).1.fileIndexes = st.fileIndexes ∧
      (updateLoop es updates k st acc docs).1.fileFullText = st.fileFullText ∧
      (updateLoop es updates k st acc docs).1.events = st.events := by
  intro docs
  induction docs with
  | nil => intro k st acc; exact ⟨rfl, rfl, rfl, rfl⟩
  | cons d rest ih =>
    intro k st acc
    unfold updateLoop
    dsimp only
    split
    · exact ⟨rfl, rfl, rfl, rfl⟩
    · split
      · exact ih _ _ _
      · split
        · exact ⟨rfl, rfl, rfl, rfl⟩
        · exact ih _ _ _

theorem update_error_files_events (es : Nat → MutEnv) (s : Store) (updates : Doc)
    (hL : LoadedInv s) (he : (update es s updates).2.isOk = false) :
    (update es s updates).1.fileData = s.fileData ∧
    (update es s updates).1.fileIndexes = s.fileIndexes ∧
    (update es s updates).1.fileFullText = s.fileFullText ∧
    (update es s updates).1.events = s.events := by
  obtain ⟨m, hm⟩ : ∃ m, (get s).2 = m := ⟨_, rfl⟩
  have hget : get s = (resetQuery s, m) := Prod.ext (get_state s hL) hm
  have hloop := updateLoop_files_events es updates m 0 (resetQuery s) []
  revert he
  unfold update
  rw [loadAll_loaded s hL]
  simp only [hget]
  rcases hres : updateLoop es updates 0 (resetQuery s) [] m with ⟨st2, acc2, err⟩
  rw [hres] at hloop
  cases err with
  | some e =>
    intro _
    exact hloop
  | none =>
    intro he
    dsimp only [Except.isOk] at he
    exact Bool.noConfusion he

/-- C4 (corrected, counterexample): with a validator rejecting documents
carrying both poison and marked, an update matching the clean document a
and the poisoned document b raises the validation error for b, but b does
not remain unchanged in the collection: the deep merge, timestamp, and
revision were applied to the stored document before validation ran, so b
now carries marked=true in memory. -/
theorem update_validation_leaves_merged_doc_counterexample :
    c4run.2.isOk = false ∧
    c4run.1.data.get? 1 ≠ c4store.data.get? 1 ∧
    lookupKv ((c4run.1.data.get? 1).getD []) "marked" = some (.vbool true) :=
  ⟨by decide, by decide, by decide⟩

/-- C4 (amended): when update() raises a validation error for a matched
document, that document's update is aborted before index refresh,
persistence, and notification — generally a failed update leaves all three
backing files and the delivered-notification list unchanged — but the
rejected document keeps the deep-merged values in the in-memory collection,
while documents updated earlier in the same batch keep their new values
(no batch-wide rollback), as the concrete scenario shows: both a (updated
successfully first) and the rejected b carry marked=true, with nothing
persisted and nothing notified. -/
theorem update_validation_abort_amended :
    (∀ (es : Nat → MutEnv) (s : Store) (updates : Doc), LoadedInv s →
      (update es s updates).2.isOk = false →
      (update es s updates).1.fileData = s.fileData ∧
      (update es s updates).1.fileIndexes = s.fileIndexes ∧
      (update es s updates).1.fileFullText = s.fileFullText ∧
      (update es s updates).1.events = s.events) ∧
    (c4run.2.isOk = false ∧
     lookupKv ((c4run.1.data.get? 0).getD []) "marked" = some (.vbool true) ∧
     lookupKv ((c4run.1.data.get? 1).getD []) "marked" = some (.vbool true) ∧
     c4run.1.fileData = c4store.fileData ∧ c4run.1.events = c4store.events) :=
  ⟨fun es s updates hL he => update_error_files_events es s updates hL he,
   by decide, by decide, by decide, by decide, by decide⟩

theorem update_validation_abort_amended_witness :
    c4run.1.fileData = c4store.fileData ∧ c4run.1.events = c4store.events :=
  ⟨(update_validation_abort_amended.1 envC c4store [("marked", Value.vbool true)]
      ⟨rfl, rfl, rfl⟩ (by decide)).1,
   (update_validation_abort_amended.1 envC c4store [("marked", Value.vbool true)]
      ⟨rfl, rfl, rfl⟩ (by decide)).2.2.2⟩

end Farusql

namespace Farusql

theorem get_no_query (s2 : Store) (hL : LoadedInv s2) (hw : s2.wheres = [])
    (ho : s2.orderByField = none) :
    (get s2).2 =
      (let vis := if s2.softDeleteEnabled ∧ ¬s2.showDeleted then
          s2.data.filter (fun d => ¬isDeletedDoc d) else s2.data
       let vis2 := if s2.skipCount > 0 then jsSliceFrom vis s2.skipCount else vis
       match s2.limitCount with
       | some m => jsSliceTake vis2 m
       | none => vis2) := by
  unfold get indexPrefilter
  rw [loadData_loaded s2 hL.1, loadIndexes_loaded s2 hL.2.1]
  simp [hw, ho, strOptTruthy]

theorem count_shape (s : Store) (hL : LoadedInv s) :
    count s = (resetQuery s,
      ((visibleData s).filter (fun d => s.wheres.all (testWhole d))).length) := by
  unfold count visibleData
  rw [loadData_loaded s hL.1]

/-- C9 (confirmed): for a chain with at least one where condition,
paginate(page, perPage) computes totalCount over the predicate-filtered
(and soft-delete-visible) collection, but because count() resets the query
state (clearing this.wheres, the ordering, and the visibility flag) before
the subsequent get() runs, the returned data page is drawn from the
predicate-unfiltered collection with only skip and limit applied. -/
theorem paginate_count_resets_predicates (s : Store) (page perPage : Int)
    (hL : LoadedInv s) (hw : s.wheres ≠ []) (hp : 1 ≤ page) (hpp : 1 ≤ perPage) :
    (paginate s page perPage).2.totalCount =
      ((visibleData s).filter (fun d => s.wheres.all (testWhole d))).length ∧
    (paginate s page perPage).2.pageData =
      ((visibleDefault s).drop ((page - 1) * perPage).toNat).take perPage.toNat := by
  have hcount := count_shape s hL
  have hL2 : LoadedInv (skipQ (limitQ (resetQuery s) perPage) ((page - 1) * perPage)) :=
    ⟨hL.1, hL.2.1, hL.2.2⟩
  have hget := get_no_query (skipQ (limitQ (resetQuery s) perPage) ((page - 1) * perPage))
    hL2 rfl rfl
  unfold paginate
  rw [if_neg (not_lt.mpr hp), if_neg (not_lt.mpr hpp)]
  simp only [hcount]
  refine ⟨trivial, ?_⟩
  rw [hget]
  simp only [skipQ, limitQ, resetQuery]
  have hnn : (0:Int) ≤ (page - 1) * perPage := mul_nonneg (by omega) (by omega)
  have hpn : ¬(perPage < 0) := by omega
  unfold visibleDefault jsSliceFrom jsSliceTake
  by_cases hsd : s.softDeleteEnabled <;>
    by_cases hgt : (page - 1) * perPage > 0 <;>
      simp only [hsd, hgt, not_lt.mpr hnn, if_true, if_false, if_neg hpn,
        not_false_eq_true, and_true, if_neg (not_lt.mpr hnn)]
  · simp
  · have hz : ((page - 1) * perPage).toNat = 0 := by omega
    simp [hz]
  · simp
  · have hz : ((page - 1) * perPage).toNat = 0 := by omega
    simp [hz]

theorem paginate_count_resets_predicates_witness :
    (paginate (whereQ c9store "k" "=" (.vnum 1)) 1 2).2.totalCount = 2 ∧
    (paginate (whereQ c9store "k" "=" (.vnum 1)) 1 2).2.pageData =
      ((visibleDefault (whereQ c9store "k" "=" (.vnum 1))).drop
        ((((1:Int) - 1) * 2).toNat)).take ((2:Int).toNat) := by
  have h := paginate_count_resets_predicates (whereQ c9store "k" "=" (.vnum 1)) 1 2
    ⟨rfl, rfl, rfl⟩ (by decide) (by decide) (by decide)
  exact ⟨by rw [h.1]; decide, h.2⟩

end Farusql

namespace Farusql

theorem lookupAssoc_pushIdTo (m : List (String × List (Option Value))) (key : String)
    (i : Option Value) (key' : String) :
    lookupAssoc (pushIdTo m key i) key' =
      if key' = key then some (((lookupAssoc m key).getD []) ++ [i])
      else lookupAssoc m key' := by
  induction m with
  | nil =>
    by_cases h : key' = key
    · subst h; simp [pushIdTo, lookupAssoc]
    · have h2 : ¬key = key' := fun hh => h hh.symm
      simp [pushIdTo, lookupAssoc, h, h2]
  | cons kv t ih =>
    obtain ⟨k, ids⟩ := kv
    by_cases hk : k = key
    · subst hk
      by_cases h : k = key'
      · subst h
        simp [pushIdTo, lookupAssoc]
      · have h2 : ¬key' = k := fun hh => h hh.symm
        simp [pushIdTo, lookupAssoc, h, h2]
    · by_cases h2 : k = key'
      · subst h2
        simp [pushIdTo, lookupAssoc, hk]
      · by_cases h3 : key' = key
        · subst h3
          simp [pushIdTo, lookupAssoc, hk, h2, ih]
        · simp [pushIdTo, lookupAssoc, hk, h2, h3, ih]

end Farusql

namespace Farusql

theorem lookupAssoc_buildIndexMap (fields : List String) (ds : List Doc) :
    ∀ (m : List (String × List (Option Value))) (key : String),
      lookupAssoc (buildIndexMap fields ds m) key =
        (match lookupAssoc m key with
         | some ids =>
           some (ids ++ (ds.filter (fun d => getCompositeIndexValue d fields = some key)).map idOf)
         | none =>
           if (ds.filter (fun d => getCompositeIndexValue d fields = some key)) = [] then none
           else some ((ds.filter (fun d => getCompositeIndexValue d fields = some key)).map idOf)) := by
  induction ds with
  | nil =>
    intro m key
    simp only [buildIndexMap, List.filter_nil, List.map_nil]
    cases lookupAssoc m key <;> simp
  | cons d rest ih =>
    intro m key
    unfold buildIndexMap
    cases hcv : getCompositeIndexValue d fields with
    | none =>
      rw [ih m key]
      simp [List.filter_cons, hcv]
    | some k2 =>
      by_cases hk : k2 = key
      · subst hk
        rw [ih (pushIdTo m k2 (idOf d)) k2, lookupAssoc_pushIdTo]
        rw [if_pos rfl]
        simp only [List.filter_cons, hcv, decide_eq_true_eq, if_pos rfl]
        cases hm : lookupAssoc m k2 <;> simp [List.cons_ne_nil]
      · rw [ih (pushIdTo m k2 (idOf d)) key, lookupAssoc_pushIdTo]
        rw [if_neg (fun hh : key = k2 => hk hh.symm)]
        have : ¬(getCompositeIndexValue d fields = some key) := by
          rw [hcv]; exact fun hh => hk (Option.some.inj hh)
        simp only [List.filter_cons, hcv, decide_eq_true_eq]
        rw [if_neg (fun hh : some k2 = some key => hk (Option.some.inj hh))]

end Farusql

namespace Farusql

theorem getCompositeIndexValue_single_str (d : Doc) (f u : String)
    (h : getValueByDot d f = some (.vstr u)) :
    getCompositeIndexValue d [f] = some u := by
  simp only [getCompositeIndexValue, List.map_cons, List.map_nil, h]
  simp [serializeIndexValue]
  rfl

theorem getCompositeIndexValue_single_undef (d : Doc) (f : String)
    (h : getValueByDot d f = none) : getCompositeIndexValue d [f] = none := by
  simp [getCompositeIndexValue, h]

theorem looseEq_str_str (u t : String) : looseEq (some (.vstr u)) (.vstr t) = (u == t) := by
  simp [looseEq, looseEqV, toPrimV]

theorem testCondition_eqOp (d : Doc) (f : String) (v : Value) :
    testCondition d f "=" v = looseEq (getValueByDot d f) v := by
  simp [testCondition]

theorem intercalate_single (sep a : String) : String.intercalate sep [a] = a := rfl

theorem createIndex_baseStore (ds : List Doc) (f : String) :
    createIndex (baseStore ds) [f] none =
      { baseStore ds with
        indexes := [(f, { fields := [f], map := buildIndexMap [f] ds [] })],
        indexedFields := addUniq (baseStore ds).indexedFields f,
        fileIndexes := some [(f, { fields := [f], map := buildIndexMap [f] ds [] })] } := by
  unfold createIndex saveIndexes
  rw [loadData_loaded _ rfl, loadIndexes_loaded _ rfl]
  simp [strOptTruthy, lookupAssoc, intercalate_single, baseStore, initStore]

end Farusql

namespace Farusql

theorem explainQuery_single (s : Store) (f op : String) (v : Value) (idx : IndexRec)
    (hw : s.wheres = [.single f op v]) (hi : s.indexes = [(f, idx)]) (hf : idx.fields = [f]) :
    (explainQuery s).usedIndexes = [f] := by
  simp [explainQuery, condFields, hw, hi, hf, addUniq]

theorem indexPrefilter_single_hit (s : Store) (f : String) (v : Value) (idx : IndexRec)
    (ids : List (Option Value)) (results : List Doc)
    (hw : s.wheres = [.single f "=" v]) (hi : s.indexes = [(f, idx)])
    (hm : lookupAssoc idx.map (serializeIndexValue (some v)) = some ids) :
    indexPrefilter s [f] results =
      ({ s with wheres := [] },
       results.filter (fun d => ids.any (fun i => strictEqOpt i (idOf d)))) := by
  unfold indexPrefilter
  simp [hw, hi, hm, List.findIdx?, lookupAssoc]

theorem indexPrefilter_single_miss (s : Store) (f : String) (v : Value) (idx : IndexRec)
    (results : List Doc)
    (hw : s.wheres = [.single f "=" v]) (hi : s.indexes = [(f, idx)])
    (hm : lookupAssoc idx.map (serializeIndexValue (some v)) = none) :
    indexPrefilter s [f] results = (s, results) := by
  unfold indexPrefilter
  simp [hw, hi, hm, List.findIdx?, lookupAssoc]

theorem get_single_eq (s : Store) (f : String) (v : Value) (idx : IndexRec)
    (hL : LoadedInv s) (hw : s.wheres = [.single f "=" v]) (hi : s.indexes = [(f, idx)])
    (hf : idx.fields = [f]) (hsd : s.softDeleteEnabled = false) (ho : s.orderByField = none)
    (hsk : s.skipCount = 0) (hlim : s.limitCount = none) :
    (get s).2 =
      (match lookupAssoc idx.map (serializeIndexValue (some v)) with
       | some ids => s.data.filter (fun d => ids.any (fun i => strictEqOpt i (idOf d)))
       | none => s.data.filter (fun d => testCondition d f "=" v)) := by
  unfold get
  rw [loadData_loaded s hL.1, loadIndexes_loaded s hL.2.1]
  dsimp only
  rw [explainQuery_single s f "=" v idx hw hi hf]
  simp only [hsd, Bool.false_eq_true, false_and, if_false]
  cases hm : lookupAssoc idx.map (serializeIndexValue (some v)) with
  | some ids =>
    rw [indexPrefilter_single_hit s f v idx ids s.data hw hi hm]
    simp [ho, hsk, hlim, strOptTruthy]
  | none =>
    rw [indexPrefilter_single_miss s f v idx s.data hw hi hm]
    simp [hw, ho, hsk, hlim, strOptTruthy, testWhole]

end Farusql

namespace Farusql

theorem strictEqOpt_str (a b : String) :
    strictEqOpt (some (.vstr a)) (some (.vstr b)) = (a == b) := rfl

theorem anytest_eq_looseEq (ds : List Doc) (f t : String)
    (hvals : ∀ d ∈ ds, getValueByDot d f = none ∨ ∃ u, getValueByDot d f = some (.vstr u))
    (hids : ∀ d ∈ ds, ∃ sid, idOf d = some (.vstr sid))
    (hnodup : (ds.map idOf).Nodup) (d : Doc) (hd : d ∈ ds) :
    (((ds.filter (fun d => getCompositeIndexValue d [f] = some t)).map idOf).any
        (fun i => strictEqOpt i (idOf d))) =
      looseEq (getValueByDot d f) (.vstr t) := by
  obtain ⟨sid, hsid⟩ := hids d hd
  have hinj := List.inj_on_of_nodup_map hnodup
  have hmem : ∀ d' ∈ ds, getCompositeIndexValue d' [f] = some t →
      strictEqOpt (idOf d') (idOf d) = true → d' = d := by
    intro d' hd' _ hstr
    obtain ⟨sid', hsid'⟩ := hids d' hd'
    rw [hsid, hsid', strictEqOpt_str, beq_iff_eq] at hstr
    exact hinj hd' hd (by rw [hsid, hsid', hstr])
  rcases hvals d hd with hnone | ⟨u, hu⟩
  · have hrhs : looseEq (getValueByDot d f) (.vstr t) = false := by rw [hnone]; rfl
    rw [hrhs]
    rw [List.any_eq_false]
    intro i hi
    simp only [List.mem_map, List.mem_filter, decide_eq_true_eq] at hi
    obtain ⟨d', ⟨hd', hcv'⟩, rfl⟩ := hi
    intro hstr
    have := hmem d' hd' hcv' hstr
    subst this
    rw [getCompositeIndexValue_single_undef d' f hnone] at hcv'
    exact Option.noConfusion hcv'
  · rw [hu, looseEq_str_str]
    by_cases hut : u = t
    · subst hut
      have hteq : (u == u) = true := by simp
      rw [hteq]
      rw [List.any_eq_true]
      refine ⟨idOf d, List.mem_map_of_mem idOf ?_, ?_⟩
      · rw [List.mem_filter]
        exact ⟨hd, by rw [getCompositeIndexValue_single_str d f u hu]; simp⟩
      · rw [hsid, strictEqOpt_str]; simp
    · have hteq : (u == t) = false := by simp [hut]
      rw [hteq]
      rw [List.any_eq_false]
      intro i hi
      simp only [List.mem_map, List.mem_filter, decide_eq_true_eq] at hi
      obtain ⟨d', ⟨hd', hcv'⟩, rfl⟩ := hi
      intro hstr
      have := hmem d' hd' hcv' hstr
      subst this
      rw [getCompositeIndexValue_single_str d' f u hu] at hcv'
      exact hut (Option.some.inj hcv')

end Farusql

namespace Farusql

/-- C5 (amended): when every document carries a string `_id`, ids are pairwise
distinct, and the indexed field holds only strings (or is missing), a single
`where(f, "=", v)` query with a string value `v` answered through the equality
index returns exactly the documents of a full scan with the loose-equality
predicate.  (The original claim, quantified over every value `v`, is refuted
by the counterexample below: the index compares serialized keys, the full scan
uses JS loose equality, and the two disagree e.g. for `v = null` against a
document whose field is the string "NULL".) -/
theorem index_equality_matches_full_scan_amended (ds : List Doc) (f t : String)
    (hvals : ∀ d ∈ ds, getValueByDot d f = none ∨ ∃ u, getValueByDot d f = some (.vstr u))
    (hids : ∀ d ∈ ds, ∃ sid, idOf d = some (.vstr sid))
    (hnodup : (ds.map idOf).Nodup) :
    (get (whereQ (createIndex (baseStore ds) [f] none) f "=" (.vstr t))).2 =
      fullScanEquality (createIndex (baseStore ds) [f] none) f (.vstr t) := by
  rw [createIndex_baseStore]
  have hfse : fullScanEquality
      { baseStore ds with
        indexes := [(f, { fields := [f], map := buildIndexMap [f] ds [] })],
        indexedFields := addUniq (baseStore ds).indexedFields f,
        fileIndexes := some [(f, { fields := [f], map := buildIndexMap [f] ds [] })] } f (.vstr t) =
      ds.filter (fun d => looseEq (getValueByDot d f) (.vstr t)) := by
    unfold fullScanEquality visibleData
    simp [baseStore, initStore]
  rw [hfse]
  rw [get_single_eq _ f (.vstr t) { fields := [f], map := buildIndexMap [f] ds [] }
    ⟨rfl, rfl, rfl⟩ rfl rfl rfl rfl rfl rfl rfl]
  have hser : serializeIndexValue (some (.vstr t)) = t := rfl
  rw [hser, lookupAssoc_buildIndexMap [f] ds [] t]
  have hnil : lookupAssoc ([] : List (String × List (Option Value))) t = none := rfl
  rw [hnil]
  by_cases hQ : ds.filter (fun d => getCompositeIndexValue d [f] = some t) = []
  · simp only [hQ, if_pos rfl]
    refine List.filter_congr ?_
    intro d hd
    exact testCondition_eqOp d f (.vstr t)
  · simp only [if_neg hQ]
    refine List.filter_congr ?_
    intro d hd
    exact anytest_eq_looseEq ds f t hvals hids hnodup d hd

end Farusql

namespace Farusql

/-- C5 counterexample: one document whose field `f` holds the string "NULL",
an index on `f`, and the query `where("f", "=", null)`.  The index path
serializes the query value `null` to the key "NULL", which collides with the
serialized key of the string "NULL", so the posting list yields the document
and the equality predicate is removed before the scan — the query RETURNS the
document.  The full scan with the same predicate evaluates the loose equality
`"NULL" == null`, which is false, and returns nothing.  The two result sets
differ, refuting the claim as stated for arbitrary values `v`. -/
theorem index_equality_differs_from_full_scan_counterexample : c5run.2 ≠ fullScanEquality c5store "f" .vnull := by decide

/-- Witness for the amended C5 theorem at a concrete two-document store. -/
theorem index_equality_matches_full_scan_amended_witness :
    (get (whereQ (createIndex (baseStore c5wds) ["f"] none) "f" "=" (.vstr "x"))).2 =
      fullScanEquality (createIndex (baseStore c5wds) ["f"] none) "f" (.vstr "x") :=
  index_equality_matches_full_scan_amended c5wds "f" "x"
    (by
      intro d hd
      simp only [c5wds, List.mem_cons, List.not_mem_nil, or_false] at hd
      rcases hd with rfl | rfl
      · exact Or.inr ⟨"x", rfl⟩
      · exact Or.inr ⟨"y", rfl⟩)
    (by
      intro d hd
      simp only [c5wds, List.mem_cons, List.not_mem_nil, or_false] at hd
      rcases hd with rfl | rfl
      · exact ⟨"a", rfl⟩
      · exact ⟨"b", rfl⟩)
    (by decide)

end Farusql

namespace Farusql

theorem lookupKv_setKv (d : List (String × Value)) (k : String) (v : Value) (key : String) :
    lookupKv (setKv d k v) key = if k = key then some v else lookupKv d key := by
  induction d with
  | nil => by_cases h : k = key <;> simp [setKv, lookupKv, h]
  | cons kv t ih =>
    obtain ⟨k2, w⟩ := kv
    by_cases h2 : k2 = k
    · subst h2
      by_cases h : k2 = key <;> simp [setKv, lookupKv, h]
    · by_cases h : k2 = key
      · subst h
        have : ¬k = k2 := fun hh => h2 hh.symm
        simp [setKv, lookupKv, h2, this]
      · simp [setKv, lookupKv, h2, h, ih]

theorem idOf_addTimestamps (d : Doc) (b : Bool) (now : String) :
    idOf (addTimestamps d b now) = idOf d := by
  unfold addTimestamps idOf
  cases b <;> simp [lookupKv_setKv]

theorem idOf_addRevision (d : Doc) (a r n : String) :
    idOf (addRevision d a r n) = idOf d := by
  unfold addRevision idOf
  simp [lookupKv_setKv]

theorem lookupKv_deepMergeKvs_none (src : List (String × Value)) (t : List (String × Value))
    (key : String) (h : lookupKv src key = none) :
    lookupKv (deepMergeKvs t src) key = lookupKv t key := by
  induction src generalizing t with
  | nil => rfl
  | cons kv rest ih =>
    obtain ⟨k, v⟩ := kv
    have hk : ¬k = key := by
      intro hh
      simp [lookupKv, hh] at h
    have hrest : lookupKv rest key = none := by
      simpa [lookupKv, hk] using h
    have step : lookupKv (deepMergeInto t k v) key = lookupKv t key := by
      cases v <;> simp [deepMergeInto, lookupKv_setKv, hk]
    calc lookupKv (deepMergeKvs t ((k, v) :: rest)) key
        = lookupKv (deepMergeKvs (deepMergeInto t k v) rest) key := rfl
      _ = lookupKv (deepMergeInto t k v) key := ih _ hrest
      _ = lookupKv t key := step

theorem idOf_deepMerge_none (t patch : Doc) (h : lookupKv patch "_id" = none) :
    idOf (deepMerge t patch) = idOf t :=
  lookupKv_deepMergeKvs_none patch t "_id" h

end Farusql

namespace Farusql

theorem set_get_self {α : Type} (l : List α) (i : Nat) (a : α) (h : l.get? i = some a) :
    l.set i a = l := by
  induction l generalizing i with
  | nil => rfl
  | cons x t ih =>
    cases i with
    | zero =>
      have hx : x = a := Option.some.inj h
      rw [List.set, hx]
    | succ j =>
      rw [List.set, ih j h]

theorem set_get_none {α : Type} (l : List α) (i : Nat) (a : α) (h : l.get? i = none) :
    l.set i a = l := by
  induction l generalizing i with
  | nil => rfl
  | cons x t ih =>
    cases i with
    | zero => exact Option.noConfusion h
    | succ j => rw [List.set, ih j h]

theorem map_set_comm {α β : Type} (f : α → β) (l : List α) (i : Nat) (a : α) :
    (l.set i a).map f = (l.map f).set i (f a) := by
  induction l generalizing i with
  | nil => rfl
  | cons x t ih =>
    cases i with
    | zero => rfl
    | succ j => rw [List.set, List.map, List.map, List.set, ih j]

theorem get_map_comm {α β : Type} (f : α → β) (l : List α) (i : Nat) :
    (l.map f).get? i = (l.get? i).map f := by
  induction l generalizing i with
  | nil => cases i <;> rfl
  | cons x t ih =>
    cases i with
    | zero => rfl
    | succ j => exact ih j

theorem map_eraseIdx_comm {α β : Type} (f : α → β) (l : List α) (i : Nat) :
    (l.eraseIdx i).map f = (l.map f).eraseIdx i := by
  induction l generalizing i with
  | nil => rfl
  | cons x t ih =>
    cases i with
    | zero => rfl
    | succ j => rw [List.eraseIdx, List.map, List.map, List.eraseIdx, ih j]

theorem map_set_self {α β : Type} (f : α → β) (l : List α) (i : Nat) (a : α)
    (hsame : ∀ b, l.get? i = some b → f a = f b) :
    (l.set i a).map f = l.map f := by
  cases hg : l.get? i with
  | none => rw [set_get_none l i a hg]
  | some b =>
    rw [map_set_comm]
    have : (l.map f).get? i = some (f b) := by rw [get_map_comm, hg]; rfl
    rw [hsame b hg]
    exact set_get_self (l.map f) i (f b) this

end Farusql

namespace Farusql

theorem insertCore_data (e : MutEnv) (s : Store) (d : Doc) :
    (insertCore e s d).1.data = s.data ++ [(insertCore e s d).2] := rfl

theorem insertCore_flags (e : MutEnv) (s : Store) (d : Doc) :
    (insertCore e s d).1.dataLoaded = s.dataLoaded ∧
    (insertCore e s d).1.indexesLoaded = s.indexesLoaded ∧
    (insertCore e s d).1.fullTextIndexLoaded = s.fullTextIndexLoaded ∧
    (insertCore e s d).1.inTransaction = s.inTransaction ∧
    (insertCore e s d).1.validationCallbacks = s.validationCallbacks ∧
    (insertCore e s d).1.transactionLock = s.transactionLock := by
  refine ⟨rfl, rfl, rfl, rfl, rfl, rfl⟩

theorem idOf_insertCore (e : MutEnv) (s : Store) (d : Doc) :
    idOf (insertCore e s d).2 = insertedId e d := by
  unfold insertCore insertedId
  by_cases h : optTruthy (lookupKv d "_id") = true
  · simp only [h, if_true, if_pos]
    rw [idOf_addRevision, idOf_addTimestamps]
    rfl
  · have h2 : optTruthy (lookupKv d "_id") = false := by
      cases hb : optTruthy (lookupKv d "_id")
      · rfl
      · exact absurd hb h
    simp only [h2]
    rw [idOf_addRevision, idOf_addTimestamps]
    unfold idOf
    simp [lookupKv_setKv]

theorem persistAll_fields (s : Store) :
    (persistAll s).data = s.data ∧
    (persistAll s).dataLoaded = s.dataLoaded ∧
    (persistAll s).indexesLoaded = s.indexesLoaded ∧
    (persistAll s).fullTextIndexLoaded = s.fullTextIndexLoaded :=
  ⟨rfl, rfl, rfl, rfl⟩

theorem triggerChange_fields (s : Store) (d : Doc) (ty : String) :
    (triggerChange s d ty).data = s.data ∧
    (triggerChange s d ty).dataLoaded = s.dataLoaded ∧
    (triggerChange s d ty).indexesLoaded = s.indexesLoaded ∧
    (triggerChange s d ty).fullTextIndexLoaded = s.fullTextIndexLoaded := by
  unfold triggerChange
  by_cases h : s.inTransaction = true <;> simp [h]

theorem foldl_triggerChange_fields (ty : String) (l : List Doc) (s : Store) :
    (l.foldl (fun s d => triggerChange s d ty) s).data = s.data ∧
    (l.foldl (fun s d => triggerChange s d ty) s).dataLoaded = s.dataLoaded ∧
    (l.foldl (fun s d => triggerChange s d ty) s).indexesLoaded = s.indexesLoaded ∧
    (l.foldl (fun s d => triggerChange s d ty) s).fullTextIndexLoaded = s.fullTextIndexLoaded := by
  induction l generalizing s with
  | nil => exact ⟨rfl, rfl, rfl, rfl⟩
  | cons d t ih =>
    have h1 := triggerChange_fields s d ty
    have h2 := ih (triggerChange s d ty)
    exact ⟨h2.1.trans h1.1, h2.2.1.trans h1.2.1, h2.2.2.1.trans h1.2.2.1,
           h2.2.2.2.trans h1.2.2.2⟩

theorem resetQuery_fields (s : Store) :
    (resetQuery s).data = s.data ∧
    (resetQuery s).dataLoaded = s.dataLoaded ∧
    (resetQuery s).indexesLoaded = s.indexesLoaded ∧
    (resetQuery s).fullTextIndexLoaded = s.fullTextIndexLoaded :=
  ⟨rfl, rfl, rfl, rfl⟩

end Farusql

namespace Farusql

theorem insert_step (e : MutEnv) (s : Store) (d : Doc) (hL : LoadedInv s) :
    LoadedInv (insert e s d).1 ∧
      ((insert e s d).1.data.map idOf = s.data.map idOf ∨
       (insert e s d).1.data.map idOf = s.data.map idOf ++ [insertedId e d]) := by
  unfold insert
  rw [loadAll_loaded s hL]
  by_cases h1 : s.inTransaction = true ∧ optTruthy s.transactionLock = true
  · simp only [h1, and_self, if_pos]
    exact ⟨hL, Or.inl trivial⟩
  · rw [if_neg (by simpa using h1)]
    by_cases h2 : validateAll s d = true
    · simp only [h2, not_true, if_neg, if_false]
      have hflags := insertCore_flags e s d
      have hdata := insertCore_data e s d
      have hid := idOf_insertCore e s d
      rcases hsc : insertCore e s d with ⟨s1, nd⟩
      rw [hsc] at hflags hdata hid
      have hdata2 : s1.data = s.data ++ [nd] := hdata
      have hid2 : idOf nd = insertedId e d := hid
      have hflags2 : s1.dataLoaded = s.dataLoaded ∧ s1.indexesLoaded = s.indexesLoaded ∧
          s1.fullTextIndexLoaded = s.fullTextIndexLoaded ∧ s1.inTransaction = s.inTransaction ∧
          s1.validationCallbacks = s.validationCallbacks ∧ s1.transactionLock = s.transactionLock := hflags
      simp only [hsc]
      by_cases h3 : s1.inTransaction = true
      · have h3n : ¬¬s1.inTransaction = true := fun hh => hh h3
        rw [if_neg h3n]
        have ht := triggerChange_fields { s1 with transactionLog := s1.transactionLog ++ [.insertE nd] } nd "insert"
        refine ⟨?_, Or.inr ?_⟩
        · exact ⟨ht.2.1.trans (hflags2.1.trans hL.1), ht.2.2.1.trans (hflags2.2.1.trans hL.2.1),
                 ht.2.2.2.trans (hflags2.2.2.1.trans hL.2.2)⟩
        · rw [ht.1]
          show s1.data.map idOf = _
          rw [hdata2]
          simp [hid2]
      · rw [if_pos h3]
        have hp := persistAll_fields s1
        have ht := triggerChange_fields (persistAll s1) nd "insert"
        refine ⟨?_, Or.inr ?_⟩
        · exact ⟨ht.2.1.trans (hp.2.1.trans (hflags2.1.trans hL.1)),
                 ht.2.2.1.trans (hp.2.2.1.trans (hflags2.2.1.trans hL.2.1)),
                 ht.2.2.2.trans (hp.2.2.2.trans (hflags2.2.2.1.trans hL.2.2))⟩
        · rw [ht.1, hp.1, hdata2]
          simp [hid2]
    · have h2f : validateAll s d = false := by
        cases hb : validateAll s d
        · rfl
        · exact absurd hb h2
      simp only [h2f, Bool.false_eq_true, not_false_iff, if_true]
      exact ⟨hL, Or.inl trivial⟩

end Farusql

namespace Farusql

theorem assignedIds_eq_from (es : Nat → MutEnv) (docs : List Doc) :
    ∀ k, assignedIdsFrom es k docs = assignedIds (fun i => es (k + i)) docs := by
  induction docs with
  | nil => intro k; rfl
  | cons d rest ih =>
    intro k
    show insertedId (es k) d :: assignedIdsFrom es (k + 1) rest = _
    rw [ih (k + 1)]
    unfold assignedIds
    simp only [List.length_cons, List.range_succ_eq_map, List.zipWith_cons_cons,
               List.zipWith_map_left, Nat.add_zero]
    congr 1
    have hfun : (fun (a : Nat) (b : Doc) => insertedId (es (k + 1 + a)) b) =
        (fun (a : Nat) (b : Doc) => insertedId (es (k + a.succ)) b) := by
      funext a b
      congr 2
      omega
    exact congrArg (fun f => List.zipWith f (List.range rest.length) rest) hfun

theorem insertManyLoop_ids (es : Nat → MutEnv) (rest : List Doc) :
    ∀ (k : Nat) (s : Store) (acc : List Doc),
    ∃ C, C.IsPrefix (assignedIdsFrom es k rest) ∧
      (insertManyLoop es k s acc rest).1.data.map idOf = s.data.map idOf ++ C ∧
      (insertManyLoop es k s acc rest).1.dataLoaded = s.dataLoaded ∧
      (insertManyLoop es k s acc rest).1.indexesLoaded = s.indexesLoaded ∧
      (insertManyLoop es k s acc rest).1.fullTextIndexLoaded = s.fullTextIndexLoaded ∧
      (insertManyLoop es k s acc rest).1.inTransaction = s.inTransaction := by
  induction rest with
  | nil =>
    intro k s acc
    exact ⟨[], List.prefix_refl _, by simp [insertManyLoop], rfl, rfl, rfl, rfl⟩
  | cons d tl ih =>
    intro k s acc
    show ∃ C, C.IsPrefix (insertedId (es k) d :: assignedIdsFrom es (k + 1) tl) ∧ _
    unfold insertManyLoop
    by_cases hv : validateAll s d = true
    · simp only [hv, not_true, if_neg, if_false]
      have hflags := insertCore_flags (es k) s d
      have hdata := insertCore_data (es k) s d
      have hid := idOf_insertCore (es k) s d
      rcases hsc : insertCore (es k) s d with ⟨s1, nd⟩
      rw [hsc] at hflags hdata hid
      have hdata2 : s1.data = s.data ++ [nd] := hdata
      have hid2 : idOf nd = insertedId (es k) d := hid
      have hflags2 : s1.dataLoaded = s.dataLoaded ∧ s1.indexesLoaded = s.indexesLoaded ∧
          s1.fullTextIndexLoaded = s.fullTextIndexLoaded ∧ s1.inTransaction = s.inTransaction := 
        ⟨hflags.1, hflags.2.1, hflags.2.2.1, hflags.2.2.2.1⟩
      simp only [hsc]
      obtain ⟨C, hpre, hids, hf1, hf2, hf3, hf4⟩ := ih (k + 1) s1 (acc ++ [nd])
      refine ⟨insertedId (es k) d :: C, ?_, ?_, hf1.trans hflags2.1, hf2.trans hflags2.2.1,
              hf3.trans hflags2.2.2.1, hf4.trans hflags2.2.2.2⟩
      · exact (List.prefix_cons_inj _).mpr hpre
      · rw [hids, hdata2]
        simp [hid2]
    · have hvf : validateAll s d = false := by
        cases hb : validateAll s d
        · rfl
        · exact absurd hb hv
      simp only [hvf, Bool.false_eq_true, not_false_iff, if_true]
      exact ⟨[], List.nil_prefix, by simp, by trivial, by trivial, by trivial, by trivial⟩

end Farusql

namespace Farusql

theorem insertMany_step (es : Nat → MutEnv) (s : Store) (ds : List Doc) (hL : LoadedInv s) :
    LoadedInv (insertMany es s ds).1 ∧
      ∃ C, C.IsPrefix (assignedIds es ds) ∧
        (insertMany es s ds).1.data.map idOf = s.data.map idOf ++ C := by
  have hes : (fun i => es (0 + i)) = es := funext fun i => by rw [Nat.zero_add]
  unfold insertMany
  rw [loadAll_loaded s hL]
  by_cases h1 : s.inTransaction = true ∧ optTruthy s.transactionLock = true
  · simp only [h1, and_self, if_pos]
    exact ⟨hL, [], List.nil_prefix, by simp⟩
  · rw [if_neg (by simpa using h1)]
    obtain ⟨C, hpre, hids, hf1, hf2, hf3, hf4⟩ := insertManyLoop_ids es ds 0 s []
    have hpre2 : C.IsPrefix (assignedIds es ds) := by
      rw [assignedIds_eq_from es ds 0, hes] at hpre
      exact hpre
    rcases hml : insertManyLoop es 0 s [] ds with ⟨s1, inserted, err⟩
    rw [hml] at hids hf1 hf2 hf3 hf4
    have hids2 : s1.data.map idOf = s.data.map idOf ++ C := hids
    have hL1 : LoadedInv s1 := ⟨(show s1.dataLoaded = s.dataLoaded from hf1).trans hL.1,
      (show s1.indexesLoaded = s.indexesLoaded from hf2).trans hL.2.1,
      (show s1.fullTextIndexLoaded = s.fullTextIndexLoaded from hf3).trans hL.2.2⟩
    simp only [hml]
    cases err with
    | some msg => exact ⟨hL1, C, hpre2, hids2⟩
    | none =>
      dsimp only
      by_cases h3 : s1.inTransaction = true
      · have h3n : ¬¬s1.inTransaction = true := fun hh => hh h3
        rw [if_neg h3n]
        have ht := foldl_triggerChange_fields "insert" inserted
          { s1 with transactionLog := s1.transactionLog ++ [.insertManyE inserted] }
        refine ⟨⟨ht.2.1.trans hL1.1, ht.2.2.1.trans hL1.2.1, ht.2.2.2.trans hL1.2.2⟩,
                C, hpre2, ?_⟩
        rw [ht.1]
        exact hids2
      · rw [if_pos h3]
        have hp := persistAll_fields s1
        have ht := foldl_triggerChange_fields "insert" inserted (persistAll s1)
        refine ⟨⟨ht.2.1.trans (hp.2.1.trans hL1.1), ht.2.2.1.trans (hp.2.2.1.trans hL1.2.1),
                 ht.2.2.2.trans (hp.2.2.2.trans hL1.2.2)⟩, C, hpre2, ?_⟩
        rw [ht.1, hp.1]
        exact hids2

end Farusql

namespace Farusql

theorem updateLoop_ids (es : Nat → MutEnv) (patch : Doc) (hidp : lookupKv patch "_id" = none)
    (ms : List Doc) :
    ∀ (k : Nat) (s : Store) (acc : List Doc),
      (updateLoop es patch k s acc ms).1.data.map idOf = s.data.map idOf ∧
      (updateLoop es patch k s acc ms).1.dataLoaded = s.dataLoaded ∧
      (updateLoop es patch k s acc ms).1.indexesLoaded = s.indexesLoaded ∧
      (updateLoop es patch k s acc ms).1.fullTextIndexLoaded = s.fullTextIndexLoaded := by
  induction ms with
  | nil => intro k s acc; exact ⟨rfl, rfl, rfl, rfl⟩
  | cons d tl ih =>
    intro k s acc
    unfold updateLoop
    by_cases hlock : s.inTransaction = true ∧ optTruthy s.transactionLock = true ∧
        ¬strictEqOpt s.transactionLock (idOf d) = true
    · rw [if_pos hlock]
      exact ⟨rfl, rfl, rfl, rfl⟩
    · rw [if_neg hlock]
      cases hf : s.data.findIdx? (fun x => strictEqOpt (idOf x) (idOf d)) with
      | none =>
        simp only [hf]
        exact ih (k + 1) s acc
      | some i =>
        simp only [hf]
        have hidm : ∀ b, s.data.get? i = some b →
            idOf (addRevision (addTimestamps (deepMerge ((s.data.get? i).getD []) patch) false
              (es k).now) "update" (es k).revId (es k).now) = idOf b := by
          intro b hb
          rw [hb]
          show idOf (addRevision (addTimestamps (deepMerge b patch) false (es k).now)
            "update" (es k).revId (es k).now) = idOf b
          rw [idOf_addRevision, idOf_addTimestamps, idOf_deepMerge_none _ _ hidp]
        have hmap : ((s.data.set i (addRevision (addTimestamps
            (deepMerge ((s.data.get? i).getD []) patch) false (es k).now) "update"
            (es k).revId (es k).now)).map idOf) = s.data.map idOf :=
          map_set_self idOf s.data i _ hidm
        by_cases hv : validateAll { s with data := s.data.set i (addRevision (addTimestamps
            (deepMerge ((s.data.get? i).getD []) patch) false (es k).now) "update"
            (es k).revId (es k).now) } (addRevision (addTimestamps
            (deepMerge ((s.data.get? i).getD []) patch) false (es k).now) "update"
            (es k).revId (es k).now) = true
        · simp only [hv, not_true, if_neg, if_false]
          have := ih (k + 1) ({ s with
              data := s.data.set i (addRevision (addTimestamps
                (deepMerge ((s.data.get? i).getD []) patch) false (es k).now) "update"
                (es k).revId (es k).now),
              indexes := updateIndexesOnUpdate s.indexes d (addRevision (addTimestamps
                (deepMerge ((s.data.get? i).getD []) patch) false (es k).now) "update"
                (es k).revId (es k).now),
              fullTextIndex := indexDocumentFullText (removeDocFT s.fullTextIndex (idOf d))
                (addRevision (addTimestamps (deepMerge ((s.data.get? i).getD []) patch) false
                  (es k).now) "update" (es k).revId (es k).now) s.fullTextIndexedFields })
            (acc ++ [addRevision (addTimestamps (deepMerge ((s.data.get? i).getD []) patch) false
              (es k).now) "update" (es k).revId (es k).now])
          refine ⟨this.1.trans hmap, this.2.1, this.2.2.1, this.2.2.2⟩
        · have hvf : validateAll { s with data := s.data.set i (addRevision (addTimestamps
              (deepMerge ((s.data.get? i).getD []) patch) false (es k).now) "update"
              (es k).revId (es k).now) } (addRevision (addTimestamps
              (deepMerge ((s.data.get? i).getD []) patch) false (es k).now) "update"
              (es k).revId (es k).now) = false := by
            cases hb : validateAll { s with data := s.data.set i (addRevision (addTimestamps
                (deepMerge ((s.data.get? i).getD []) patch) false (es k).now) "update"
                (es k).revId (es k).now) } (addRevision (addTimestamps
                (deepMerge ((s.data.get? i).getD []) patch) false (es k).now) "update"
                (es k).revId (es k).now)
            · rfl
            · exact absurd hb hv
          simp only [hvf, Bool.false_eq_true, not_false_iff, if_true]
          exact ⟨hmap, by trivial, by trivial, by trivial⟩

end Farusql

namespace Farusql

theorem update_step (es : Nat → MutEnv) (s : Store) (patch : Doc)
    (hidp : lookupKv patch "_id" = none) (hL : LoadedInv s) :
    LoadedInv (update es s patch).1 ∧
      (update es s patch).1.data.map idOf = s.data.map idOf := by
  unfold update
  rw [loadAll_loaded s hL]
  obtain ⟨m, hm⟩ : ∃ m, (get s).2 = m := ⟨_, rfl⟩
  have hg : get s = (resetQuery s, m) := by
    rw [← get_state s hL, ← hm]
  dsimp only
  rw [hg]
  dsimp only
  have hrq := resetQuery_fields s
  obtain ⟨hmap, hf1, hf2, hf3⟩ := updateLoop_ids es patch hidp m 0 (resetQuery s) []
  rcases hml : updateLoop es patch 0 (resetQuery s) [] m with ⟨s1, updated, err⟩
  rw [hml] at hmap hf1 hf2 hf3
  have hmap2 : s1.data.map idOf = s.data.map idOf := by
    have h0 : s1.data.map idOf = (resetQuery s).data.map idOf := hmap
    rw [h0, hrq.1]
  have hL1 : LoadedInv s1 :=
    ⟨(show s1.dataLoaded = (resetQuery s).dataLoaded from hf1).trans (hrq.2.1.trans hL.1),
     (show s1.indexesLoaded = (resetQuery s).indexesLoaded from hf2).trans (hrq.2.2.1.trans hL.2.1),
     (show s1.fullTextIndexLoaded = (resetQuery s).fullTextIndexLoaded from hf3).trans
       (hrq.2.2.2.trans hL.2.2)⟩
  cases err with
  | some msg => exact ⟨hL1, hmap2⟩
  | none =>
    dsimp only
    by_cases h3 : s1.inTransaction = true
    · have h3n : ¬¬s1.inTransaction = true := fun hh => hh h3
      rw [if_neg h3n]
      have ht := foldl_triggerChange_fields "update" updated
        { s1 with transactionLog := s1.transactionLog ++ [.updateE updated] }
      have hrq2 := resetQuery_fields (updated.foldl (fun s d => triggerChange s d "update")
        { s1 with transactionLog := s1.transactionLog ++ [.updateE updated] })
      refine ⟨⟨hrq2.2.1.trans (ht.2.1.trans hL1.1), hrq2.2.2.1.trans (ht.2.2.1.trans hL1.2.1),
               hrq2.2.2.2.trans (ht.2.2.2.trans hL1.2.2)⟩, ?_⟩
      rw [hrq2.1, ht.1]
      exact hmap2
    · rw [if_pos h3]
      have hp := persistAll_fields s1
      have ht := foldl_triggerChange_fields "update" updated (persistAll s1)
      have hrq2 := resetQuery_fields (updated.foldl (fun s d => triggerChange s d "update")
        (persistAll s1))
      refine ⟨⟨hrq2.2.1.trans (ht.2.1.trans (hp.2.1.trans hL1.1)),
               hrq2.2.2.1.trans (ht.2.2.1.trans (hp.2.2.1.trans hL1.2.1)),
               hrq2.2.2.2.trans (ht.2.2.2.trans (hp.2.2.2.trans hL1.2.2))⟩, ?_⟩
      rw [hrq2.1, ht.1, hp.1]
      exact hmap2

end Farusql

namespace Farusql

theorem deleteTail_fields (s : Store) (t : Value) (dd : Doc) :
    (deleteTail s t dd).1.data = s.data ∧
    (deleteTail s t dd).1.dataLoaded = s.dataLoaded ∧
    (deleteTail s t dd).1.indexesLoaded = s.indexesLoaded ∧
    (deleteTail s t dd).1.fullTextIndexLoaded = s.fullTextIndexLoaded := by
  unfold deleteTail
  by_cases h : s.inTransaction = true
  · have hn : ¬¬s.inTransaction = true := fun hh => hh h
    rw [if_neg hn]
    dsimp only
    exact ⟨(triggerChange_fields _ _ _).1, (triggerChange_fields _ _ _).2.1,
           (triggerChange_fields _ _ _).2.2.1, (triggerChange_fields _ _ _).2.2.2⟩
  · rw [if_pos h]
    dsimp only
    have hp := persistAll_fields s
    exact ⟨(triggerChange_fields _ _ _).1.trans hp.1,
           (triggerChange_fields _ _ _).2.1.trans hp.2.1,
           (triggerChange_fields _ _ _).2.2.1.trans hp.2.2.1,
           (triggerChange_fields _ _ _).2.2.2.trans hp.2.2.2⟩

theorem delete_step (e : MutEnv) (s : Store) (t : Value) (hL : LoadedInv s) :
    LoadedInv (delete e s t).1 ∧
      ((delete e s t).1.data.map idOf = s.data.map idOf ∨
       ∃ i, (delete e s t).1.data.map idOf = (s.data.map idOf).eraseIdx i) := by
  unfold delete
  rw [loadAll_loaded s hL]
  by_cases h1 : s.inTransaction = true ∧ optTruthy s.transactionLock = true
  · rw [if_pos h1]
    exact ⟨hL, Or.inl rfl⟩
  · rw [if_neg h1]
    by_cases hsd : s.softDeleteEnabled = true
    · rw [if_pos hsd]
      cases hf : s.data.findIdx? (fun d => strictEqOpt (idOf d) (some t) ∧ ¬isDeletedDoc d) with
      | none =>
        simp only [hf]
        exact ⟨hL, Or.inl trivial⟩
      | some i =>
        simp only [hf]
        by_cases h2 : s.inTransaction = true ∧ optTruthy s.transactionLock = true ∧
            ¬strictEqOpt s.transactionLock (idOf ((s.data.get? i).getD [])) = true
        · rw [if_pos h2]
          exact ⟨hL, Or.inl rfl⟩
        · rw [if_neg h2]
          have hidm : ∀ b, s.data.get? i = some b →
              idOf (addRevision (setKv (setKv ((s.data.get? i).getD []) "_deleted" (.vbool true))
                "_updated" (.vstr e.now)) "soft_delete" e.revId e.now) = idOf b := by
            intro b hb
            rw [hb]
            show idOf (addRevision (setKv (setKv b "_deleted" (.vbool true))
              "_updated" (.vstr e.now)) "soft_delete" e.revId e.now) = idOf b
            rw [idOf_addRevision]
            unfold idOf
            simp [lookupKv_setKv]
          have hmap : ((s.data.set i (addRevision (setKv (setKv ((s.data.get? i).getD [])
              "_deleted" (.vbool true)) "_updated" (.vstr e.now)) "soft_delete" e.revId
              e.now)).map idOf) = s.data.map idOf :=
            map_set_self idOf s.data i _ hidm
          have hgen : ∀ st : Store, st.data.map idOf = s.data.map idOf →
              st.dataLoaded = s.dataLoaded → st.indexesLoaded = s.indexesLoaded →
              st.fullTextIndexLoaded = s.fullTextIndexLoaded →
              LoadedInv (deleteTail st t ((s.data.get? i).getD [])).1 ∧
                ((deleteTail st t ((s.data.get? i).getD [])).1.data.map idOf =
                    s.data.map idOf ∨
                 ∃ j, (deleteTail st t ((s.data.get? i).getD [])).1.data.map idOf =
                    (s.data.map idOf).eraseIdx j) := by
            intro st hd hq1 hq2 hq3
            have hdt := deleteTail_fields st t ((s.data.get? i).getD [])
            refine ⟨⟨hdt.2.1.trans (hq1.trans hL.1), hdt.2.2.1.trans (hq2.trans hL.2.1),
                     hdt.2.2.2.trans (hq3.trans hL.2.2)⟩, Or.inl ?_⟩
            rw [hdt.1]
            exact hd
          exact hgen _ hmap rfl rfl rfl
    · have hsdf : s.softDeleteEnabled = false := by
        cases hb : s.softDeleteEnabled
        · rfl
        · exact absurd hb hsd
      simp only [hsdf, Bool.false_eq_true, if_false]
      cases hf : s.data.findIdx? (fun d => strictEqOpt (idOf d) (some t)) with
      | none =>
        simp only [hf]
        exact ⟨hL, Or.inl trivial⟩
      | some i =>
        simp only [hf]
        by_cases h2 : s.inTransaction = true ∧ optTruthy s.transactionLock = true ∧
            ¬strictEqOpt s.transactionLock (idOf ((s.data.get? i).getD [])) = true
        · rw [if_pos h2]
          refine ⟨hL, Or.inr ⟨i, ?_⟩⟩
          show (s.data.eraseIdx i).map idOf = _
          exact map_eraseIdx_comm idOf s.data i
        · rw [if_neg h2]
          have hgen : ∀ st : Store, st.data.map idOf = (s.data.map idOf).eraseIdx i →
              st.dataLoaded = s.dataLoaded → st.indexesLoaded = s.indexesLoaded →
              st.fullTextIndexLoaded = s.fullTextIndexLoaded →
              LoadedInv (deleteTail st t ((s.data.get? i).getD [])).1 ∧
                ((deleteTail st t ((s.data.get? i).getD [])).1.data.map idOf =
                    s.data.map idOf ∨
                 ∃ j, (deleteTail st t ((s.data.get? i).getD [])).1.data.map idOf =
                    (s.data.map idOf).eraseIdx j) := by
            intro st hd hq1 hq2 hq3
            have hdt := deleteTail_fields st t ((s.data.get? i).getD [])
            refine ⟨⟨hdt.2.1.trans (hq1.trans hL.1), hdt.2.2.1.trans (hq2.trans hL.2.1),
                     hdt.2.2.2.trans (hq3.trans hL.2.2)⟩, Or.inr ⟨i, ?_⟩⟩
            rw [hdt.1]
            exact hd
          exact hgen _ (map_eraseIdx_comm idOf s.data i) rfl rfl rfl

end Farusql

namespace Farusql

theorem applyOp_step (s : Store) (op : COp) (hL : LoadedInv s) (hok : opOK s op) :
    LoadedInv (applyOp s op) ∧
      idsEvolve (s.data.map idOf) ((applyOp s op).data.map idOf) ∧
      ((s.data.map idOf).Nodup → ((applyOp s op).data.map idOf).Nodup) := by
  cases op with
  | opInsert e d =>
    obtain ⟨hLi, hids⟩ := insert_step e s d hL
    refine ⟨hLi, ?_, ?_⟩
    · cases hids with
      | inl h => exact Or.inl ⟨[], by rw [List.append_nil]; exact h⟩
      | inr h => exact Or.inl ⟨[insertedId e d], h⟩
    · intro hnd
      cases hids with
      | inl h =>
        show ((insert e s d).1.data.map idOf).Nodup
        rw [h]
        exact hnd
      | inr h =>
        show ((insert e s d).1.data.map idOf).Nodup
        rw [h]
        refine List.Nodup.append hnd (List.nodup_singleton _) ?_
        intro x hx hx2
        rw [List.mem_singleton] at hx2
        subst hx2
        exact hok hx
  | opInsertMany es ds =>
    obtain ⟨hLi, C, hpre, hids⟩ := insertMany_step es s ds hL
    refine ⟨hLi, Or.inl ⟨C, hids⟩, ?_⟩
    intro hnd
    show ((insertMany es s ds).1.data.map idOf).Nodup
    rw [hids]
    have hsub : List.Sublist (s.data.map idOf ++ C) (s.data.map idOf ++ assignedIds es ds) :=
      List.Sublist.append_left hpre.sublist _
    exact List.Nodup.sublist hsub hok
  | opUpdate es conds patch =>
    obtain ⟨hLu, hmap⟩ :=
      update_step es { s with wheres := conds } patch hok ⟨hL.1, hL.2.1, hL.2.2⟩
    have hmap2 : (applyOp s (.opUpdate es conds patch)).data.map idOf = s.data.map idOf := hmap
    refine ⟨hLu, Or.inl ⟨[], by rw [List.append_nil]; exact hmap2⟩, ?_⟩
    intro hnd
    rw [hmap2]
    exact hnd
  | opDelete e t =>
    obtain ⟨hLd, hids⟩ := delete_step e s t hL
    refine ⟨hLd, ?_, ?_⟩
    · cases hids with
      | inl h => exact Or.inl ⟨[], by rw [List.append_nil]; exact h⟩
      | inr h => exact Or.inr h
    · intro hnd
      cases hids with
      | inl h =>
        show ((delete e s t).1.data.map idOf).Nodup
        rw [h]
        exact hnd
      | inr h =>
        obtain ⟨i, hi⟩ := h
        show ((delete e s t).1.data.map idOf).Nodup
        rw [hi]
        exact List.Nodup.sublist (List.eraseIdx_sublist _ i) hnd

end Farusql

namespace Farusql

/-- C6 (amended): under the explicit side conditions the source does NOT
enforce — every insert's effective _id is fresh, insertMany's assigned ids
are pairwise fresh, and no update patch mentions _id — the live collection's
ids stay pairwise distinct across every sequence of insert, insertMany,
update, and delete calls, and each operation only ever appends documents or
removes one document: no surviving document's _id changes.  (The original
claim, without the side conditions, is refuted by the counterexample below:
insert never checks an explicit _id for uniqueness, and an update patch
carrying _id overwrites the stored id in place.) -/
theorem id_unique_immutable_amended (ops : List COp) : ∀ (s : Store),
    LoadedInv s → (s.data.map idOf).Nodup → OpsOK s ops →
    ((runOps s ops).data.map idOf).Nodup ∧
    ∀ pre op suf, ops = pre ++ op :: suf →
      idsEvolve ((runOps s pre).data.map idOf) ((runOps s (pre ++ [op])).data.map idOf) := by
  induction ops with
  | nil =>
    intro s hL hnd hok
    refine ⟨hnd, ?_⟩
    intro pre op suf heq
    cases pre <;> simp at heq
  | cons op0 rest ih =>
    intro s hL hnd hok
    obtain ⟨h0, hrest⟩ := hok
    obtain ⟨hL1, hevolve, hnd1⟩ := applyOp_step s op0 hL h0
    have main := ih (applyOp s op0) hL1 (hnd1 hnd) hrest
    refine ⟨main.1, ?_⟩
    intro pre op suf heq
    cases pre with
    | nil =>
      rw [List.nil_append] at heq
      injection heq with h1 h2
      subst h1
      show idsEvolve (s.data.map idOf) ((applyOp s op0).data.map idOf)
      exact hevolve
    | cons p0 pre' =>
      rw [List.cons_append] at heq
      injection heq with h1 h2
      subst h1
      show idsEvolve ((runOps (applyOp s op0) pre').data.map idOf)
        ((runOps (applyOp s op0) (pre' ++ [op])).data.map idOf)
      exact main.2 pre' op suf h2

/-- C6 counterexample: two insert calls supplying the same explicit
_id "x" leave two live documents with identical ids (insert never checks
an explicit _id for uniqueness), and an update whose patch carries
_id "z" rewrites the stored document's assigned id "q" to "z" in place
(the deep merge overwrites _id like any other field). -/
theorem duplicate_explicit_id_counterexample :
    c6dup.data.map idOf = [some (.vstr "x"), some (.vstr "x")] ∧
    c6upd.1.data.map idOf = [some (.vstr "z")] := by decide

/-- Witness for the amended C6 theorem: one fresh insert followed by a hard
delete over a one-document store. -/
theorem id_unique_immutable_amended_witness :
    ((runOps c6wstore c6wops).data.map idOf).Nodup ∧
    ∀ pre op suf, c6wops = pre ++ op :: suf →
      idsEvolve ((runOps c6wstore pre).data.map idOf)
        ((runOps c6wstore (pre ++ [op])).data.map idOf) :=
  id_unique_immutable_amended c6wops c6wstore ⟨rfl, rfl, rfl⟩ (by decide)
    ⟨by unfold opOK; decide, trivial, trivial⟩

end Farusql

namespace Farusql

theorem lookupAssoc_ftAdd (ft : List (String × List String)) (w dk : String) (t : String) :
    lookupAssoc (ftAdd ft w dk) t =
      if w = t then some (addUniq ((lookupAssoc ft w).getD []) dk)
      else lookupAssoc ft t := by
  induction ft with
  | nil =>
    by_cases h : w = t
    · subst h
      simp [ftAdd, lookupAssoc, addUniq]
    · have h2 : ¬t = w := fun hh => h hh.symm
      simp [ftAdd, lookupAssoc, h, h2]
  | cons kv rest ih =>
    obtain ⟨k, ids⟩ := kv
    by_cases hk : k = w
    · subst hk
      by_cases h : k = t
      · subst h
        simp [ftAdd, lookupAssoc, addUniq]
      · simp [ftAdd, lookupAssoc, h, fun hh : k = t => h hh]
    · by_cases h : k = t
      · subst h
        have hw : ¬w = k := fun hh => hk hh.symm
        simp [ftAdd, lookupAssoc, hk, hw]
      · simp [ftAdd, lookupAssoc, hk, h, ih]

theorem addUniq_idem (l : List String) (x : String) :
    addUniq (addUniq l x) x = addUniq l x := by
  by_cases h : x ∈ l
  · simp [addUniq, h]
  · simp [addUniq, h]

theorem lookupAssoc_tokenFold (dk : String) (ws : List String) (t : String) :
    ∀ ft, lookupAssoc (ws.foldl (fun ft w => ftAdd ft w dk) ft) t =
      if t ∈ ws then some (addUniq ((lookupAssoc ft t).getD []) dk)
      else lookupAssoc ft t := by
  induction ws with
  | nil => intro ft; simp
  | cons w ws' ih =>
    intro ft
    show lookupAssoc (ws'.foldl (fun ft w => ftAdd ft w dk) (ftAdd ft w dk)) t = _
    rw [ih (ftAdd ft w dk)]
    by_cases hw : w = t
    · subst hw
      rw [lookupAssoc_ftAdd]
      rw [if_pos rfl]
      by_cases hmem : w ∈ ws'
      · rw [if_pos hmem, if_pos (List.mem_cons_self w ws')]
        simp [addUniq_idem]
      · rw [if_neg hmem, if_pos (List.mem_cons_self w ws')]
    · rw [lookupAssoc_ftAdd, if_neg hw]
      by_cases hmem : t ∈ ws'
      · rw [if_pos hmem, if_pos (List.mem_cons_of_mem w hmem)]
      · rw [if_neg hmem, if_neg (by
          intro hc
          rcases List.mem_cons.mp hc with h1 | h2
          · exact hw h1.symm
          · exact hmem h2)]

end Farusql

namespace Farusql

theorem lookupAssoc_docFold (d : Doc) (dk : String) (t : String) (F : List String) :
    ∀ ft, lookupAssoc (F.foldl (fun ft f =>
        match getValueByDot d f with
        | some (.vstr v) => (tokenizeText v).foldl (fun ft w => ftAdd ft w dk) ft
        | _ => ft) ft) t =
      if docHasToken d F t then some (addUniq ((lookupAssoc ft t).getD []) dk)
      else lookupAssoc ft t := by
  induction F with
  | nil =>
    intro ft
    simp [docHasToken]
  | cons f F' ih =>
    intro ft
    have hstep : List.foldl (fun ft f =>
        match getValueByDot d f with
        | some (.vstr v) => (tokenizeText v).foldl (fun ft w => ftAdd ft w dk) ft
        | _ => ft) ft (f :: F') = List.foldl (fun ft f =>
        match getValueByDot d f with
        | some (.vstr v) => (tokenizeText v).foldl (fun ft w => ftAdd ft w dk) ft
        | _ => ft) (match getValueByDot d f with
        | some (.vstr v) => (tokenizeText v).foldl (fun ft w => ftAdd ft w dk) ft
        | _ => ft) F' := rfl
    rw [hstep, ih]
    have hdht : docHasToken d (f :: F') t =
        ((match getValueByDot d f with
          | some (.vstr v) => decide (t ∈ tokenizeText v)
          | _ => false) || docHasToken d F' t) := by
      unfold docHasToken
      rw [List.any_cons]
    rw [hdht]
    cases hv : getValueByDot d f with
    | none =>
      simp only []
      by_cases hF : docHasToken d F' t = true <;> simp [hF]
    | some v =>
      cases v with
      | vstr str =>
        simp only []
        rw [lookupAssoc_tokenFold]
        by_cases ht : t ∈ tokenizeText str
        · rw [if_pos ht]
          by_cases hF : docHasToken d F' t = true
          · simp [hF, ht, addUniq_idem]
          · have hFf : docHasToken d F' t = false := by
              cases hb : docHasToken d F' t
              · rfl
              · exact absurd hb hF
            simp [hFf, ht]
        · rw [if_neg ht]
          by_cases hF : docHasToken d F' t = true <;> simp [hF, ht]
      | vnull => simp only []; by_cases hF : docHasToken d F' t = true <;> simp [hF]
      | vbool b => simp only []; by_cases hF : docHasToken d F' t = true <;> simp [hF]
      | vnum n => simp only []; by_cases hF : docHasToken d F' t = true <;> simp [hF]
      | vobj kvs => simp only []; by_cases hF : docHasToken d F' t = true <;> simp [hF]
      | varr es => simp only []; by_cases hF : docHasToken d F' t = true <;> simp [hF]

end Farusql

namespace Farusql

theorem lookupAssoc_buildFT (F : List String) (t : String) (ds : List Doc)
    (hids : ∀ d ∈ ds, optTruthy (idOf d) = true) :
    ∀ m, lookupAssoc (ds.foldl (fun ft d => indexDocumentFullText ft d F) m) t =
      if (ds.filter (fun d => docHasToken d F t)) = [] then lookupAssoc m t
      else some (((ds.filter (fun d => docHasToken d F t)).map
          (fun d => toStringJS ((idOf d).getD .vnull))).foldl addUniq
        ((lookupAssoc m t).getD [])) := by
  induction ds with
  | nil =>
    intro m
    simp
  | cons d ds' ih =>
    intro m
    have hid : optTruthy (idOf d) = true := hids d (List.mem_cons_self d ds')
    have hstep : List.foldl (fun ft d => indexDocumentFullText ft d F) m (d :: ds') =
        List.foldl (fun ft d => indexDocumentFullText ft d F)
          (indexDocumentFullText m d F) ds' := rfl
    rw [hstep, ih (fun x hx => hids x (List.mem_cons_of_mem d hx))]
    have hm1 : lookupAssoc (indexDocumentFullText m d F) t =
        if docHasToken d F t then
          some (addUniq ((lookupAssoc m t).getD []) (toStringJS ((idOf d).getD .vnull)))
        else lookupAssoc m t := by
      unfold indexDocumentFullText
      rw [if_neg (by rw [hid]; exact fun hh => hh rfl)]
      exact lookupAssoc_docFold d (toStringJS ((idOf d).getD .vnull)) t F m
    by_cases hdt : docHasToken d F t = true
    · have hm1p : lookupAssoc (indexDocumentFullText m d F) t =
          some (addUniq ((lookupAssoc m t).getD []) (toStringJS ((idOf d).getD .vnull))) := by
        rw [hm1, if_pos hdt]
      have hfc : (d :: ds').filter (fun d => docHasToken d F t) =
          d :: ds'.filter (fun d => docHasToken d F t) := by
        rw [List.filter_cons, if_pos (by simpa using hdt)]
      rw [hm1p, hfc]
      by_cases hfe : ds'.filter (fun d => docHasToken d F t) = []
      · rw [if_pos hfe, if_neg (List.cons_ne_nil _ _), hfe]
        simp
      · rw [if_neg hfe, if_neg (List.cons_ne_nil _ _)]
        simp
    · have hdf : docHasToken d F t = false := by
        cases hb : docHasToken d F t
        · rfl
        · exact absurd hb hdt
      have hm1p : lookupAssoc (indexDocumentFullText m d F) t = lookupAssoc m t := by
        rw [hm1, if_neg (by rw [hdf]; exact fun hh => Bool.noConfusion hh)]
      have hfc : (d :: ds').filter (fun d => docHasToken d F t) =
          ds'.filter (fun d => docHasToken d F t) := by
        rw [List.filter_cons, if_neg (by simp [hdf])]
      rw [hm1p, hfc]

theorem foldl_addUniq_fresh (ks : List String) :
    ∀ acc, (∀ k ∈ ks, k ∉ acc) → ks.Nodup → ks.foldl addUniq acc = acc ++ ks := by
  induction ks with
  | nil => intro acc _ _; simp
  | cons k ks' ih =>
    intro acc hfresh hnd
    have hk : k ∉ acc := hfresh k (List.mem_cons_self k ks')
    have hstep : (k :: ks').foldl addUniq acc = ks'.foldl addUniq (addUniq acc k) := rfl
    rw [hstep]
    have haq : addUniq acc k = acc ++ [k] := by simp [addUniq, hk]
    rw [haq, ih (acc ++ [k]) ?_ (List.Nodup.of_cons hnd)]
    · simp
    · intro k' hk' hmem
      rcases List.mem_append.mp hmem with h1 | h2
      · exact hfresh k' (List.mem_cons_of_mem k hk') h1
      · rw [List.mem_singleton] at h2
        subst h2
        exact (List.nodup_cons.mp hnd).1 hk'

end Farusql

namespace Farusql

theorem map_filter_comm {α β : Type} (f : α → β) (p : β → Bool) (l : List α) :
    (l.map f).filter p = (l.filter (fun x => p (f x))).map f := by
  induction l with
  | nil => rfl
  | cons x t ih =>
    by_cases h : p (f x) = true
    · simp [List.filter_cons, h, ih]
    · simp [List.filter_cons, h, ih]

theorem sids_nodup (ds : List Doc)
    (hids : ∀ d ∈ ds, ∃ sd, idOf d = some (.vstr sd))
    (hnodup : (ds.map idOf).Nodup) :
    (ds.map (fun d => toStringJS ((idOf d).getD .vnull))).Nodup := by
  induction ds with
  | nil => exact List.nodup_nil
  | cons d tl ih =>
    rw [List.map_cons, List.nodup_cons]
    rw [List.map_cons, List.nodup_cons] at hnodup
    refine ⟨?_, ih (fun x hx => hids x (List.mem_cons_of_mem d hx)) hnodup.2⟩
    intro hmem
    obtain ⟨d', hd', heq⟩ := List.mem_map.mp hmem
    obtain ⟨sd, hsd⟩ := hids d (List.mem_cons_self d tl)
    obtain ⟨sd', hsd'⟩ := hids d' (List.mem_cons_of_mem d hd')
    rw [hsd'] at heq
    rw [hsd] at heq
    have hss : sd' = sd := heq
    apply hnodup.1
    rw [hsd]
    refine List.mem_map.mpr ⟨d', hd', ?_⟩
    rw [hsd', hss]

theorem sid_inj (ds : List Doc)
    (hids : ∀ d ∈ ds, ∃ sd, idOf d = some (.vstr sd))
    (hnodup : (ds.map idOf).Nodup) (a b : Doc) (ha : a ∈ ds) (hb : b ∈ ds)
    (heq : toStringJS ((idOf a).getD .vnull) = toStringJS ((idOf b).getD .vnull)) :
    a = b := by
  have hnd := sids_nodup ds hids hnodup
  exact List.inj_on_of_nodup_map hnd ha hb heq

theorem sid_mem_sids_filter (ds : List Doc)
    (hids : ∀ d ∈ ds, ∃ sd, idOf d = some (.vstr sd))
    (hnodup : (ds.map idOf).Nodup) (Q : Doc → Bool) (d : Doc) (hd : d ∈ ds) :
    (toStringJS ((idOf d).getD .vnull) ∈
        (ds.filter Q).map (fun x => toStringJS ((idOf x).getD .vnull))) ↔ Q d = true := by
  constructor
  · intro hmem
    obtain ⟨d', hd', heq⟩ := List.mem_map.mp hmem
    have hd'2 := List.mem_filter.mp hd'
    have : d' = d := sid_inj ds hids hnodup d' d hd'2.1 hd heq
    subst this
    exact hd'2.2
  · intro hQ
    exact List.mem_map.mpr ⟨d, List.mem_filter.mpr ⟨hd, hQ⟩, rfl⟩

theorem sids_inter (ds : List Doc)
    (hids : ∀ d ∈ ds, ∃ sd, idOf d = some (.vstr sd))
    (hnodup : (ds.map idOf).Nodup) (P Q : Doc → Bool) :
    ((ds.filter P).map (fun d => toStringJS ((idOf d).getD .vnull))).filter
        (fun i => i ∈ (ds.filter Q).map (fun d => toStringJS ((idOf d).getD .vnull))) =
      (ds.filter (fun d => P d && Q d)).map (fun d => toStringJS ((idOf d).getD .vnull)) := by
  rw [map_filter_comm]
  have hfilt : (ds.filter P).filter (fun x => decide (toStringJS ((idOf x).getD .vnull) ∈
      (ds.filter Q).map (fun d => toStringJS ((idOf d).getD .vnull)))) =
      (ds.filter P).filter Q := by
    refine List.filter_congr ?_
    intro d hd
    have hd2 := List.mem_filter.mp hd
    have := sid_mem_sids_filter ds hids hnodup Q d hd2.1
    by_cases hq : Q d = true
    · simp [hq, this.mpr hq]
    · have : ¬(toStringJS ((idOf d).getD .vnull) ∈
          (ds.filter Q).map (fun d => toStringJS ((idOf d).getD .vnull))) := fun hc => hq (this.mp hc)
      simp [this, hq]
  rw [hfilt, List.filter_filter]
  refine congrArg _ (List.filter_congr ?_)
  intro d _
  exact Bool.and_comm (Q d) (P d)

end Farusql

namespace Farusql

theorem ftsIds_invariant (ds : List Doc) (F : List String)
    (ft : List (String × List String))
    (hids : ∀ d ∈ ds, ∃ sd, idOf d = some (.vstr sd))
    (hnodup : (ds.map idOf).Nodup)
    (hpost : ∀ t, lookupAssoc ft t =
      if ds.filter (fun d => docHasToken d F t) = [] then none
      else some ((ds.filter (fun d => docHasToken d F t)).map
        (fun d => toStringJS ((idOf d).getD .vnull))))
    (ts : List String) :
    ∀ P : Doc → Bool,
      ftsIds ft ts (some ((ds.filter P).map (fun d => toStringJS ((idOf d).getD .vnull)))) =
        (ds.filter (fun d => P d && ts.all (fun t => docHasToken d F t))).map
          (fun d => toStringJS ((idOf d).getD .vnull)) := by
  induction ts with
  | nil =>
    intro P
    show ((ds.filter P).map (fun d => toStringJS ((idOf d).getD .vnull)) : List String) = _
    refine congrArg _ (List.filter_congr ?_)
    intro d _
    simp
  | cons t ts' ih =>
    intro P
    unfold ftsIds
    rw [hpost t]
    by_cases hft : ds.filter (fun d => docHasToken d F t) = []
    · rw [if_pos hft]
      have hnone : ∀ d ∈ ds, ¬docHasToken d F t = true := by
        intro d hd hc
        have : d ∈ ds.filter (fun d => docHasToken d F t) :=
          List.mem_filter.mpr ⟨hd, hc⟩
        rw [hft] at this
        exact List.not_mem_nil d this
      have hrhs : ds.filter (fun d => P d &&
          (docHasToken d F t && ts'.all (fun u => docHasToken d F u))) = [] := by
        refine List.filter_eq_nil.mpr ?_
        intro d hd hc
        rw [Bool.and_eq_true, Bool.and_eq_true] at hc
        exact hnone d hd hc.2.1
      show ([] : List String) = _
      have : ds.filter (fun d => P d && List.all (t :: ts') (fun u => docHasToken d F u)) =
          ds.filter (fun d => P d &&
            (docHasToken d F t && ts'.all (fun u => docHasToken d F u))) := by
        refine List.filter_congr ?_
        intro d _
        rw [List.all_cons]
      rw [this, hrhs]
      rfl
    · rw [if_neg hft]
      have hinter := sids_inter ds hids hnodup P (fun d => docHasToken d F t)
      simp only []
      rw [hinter]
      by_cases hie : (ds.filter (fun d => P d && docHasToken d F t)).map
          (fun d => toStringJS ((idOf d).getD .vnull)) = []
      · rw [if_pos hie]
        have hfe : ds.filter (fun d => P d && docHasToken d F t) = [] :=
          List.map_eq_nil.mp hie
        have hrhs : ds.filter (fun d => P d &&
            List.all (t :: ts') (fun u => docHasToken d F u)) = [] := by
          refine List.filter_eq_nil.mpr ?_
          intro d hd hc
          rw [Bool.and_eq_true, List.all_cons, Bool.and_eq_true] at hc
          have : d ∈ ds.filter (fun d => P d && docHasToken d F t) :=
            List.mem_filter.mpr ⟨hd, by rw [Bool.and_eq_true]; exact ⟨hc.1, hc.2.1⟩⟩
          rw [hfe] at this
          exact List.not_mem_nil d this
        rw [hrhs]
        rfl
      · rw [if_neg hie]
        rw [ih (fun d => P d && docHasToken d F t)]
        refine congrArg _ (List.filter_congr ?_)
        intro d _
        rw [List.all_cons, Bool.and_assoc]

end Farusql

namespace Farusql

theorem find_by_sid (ds : List Doc)
    (hids : ∀ d ∈ ds, ∃ sd, idOf d = some (.vstr sd))
    (hnodup : (ds.map idOf).Nodup) (d : Doc) (hd : d ∈ ds) :
    ds.find? (fun x => strictEqOpt (idOf x)
        (some (.vstr (toStringJS ((idOf d).getD .vnull))))) = some d := by
  induction ds with
  | nil => exact absurd hd (List.not_mem_nil d)
  | cons h tl ih =>
    rw [List.map_cons, List.nodup_cons] at hnodup
    rcases List.mem_cons.mp hd with rfl | hdtl
    · obtain ⟨sd, hsd⟩ := hids d (List.mem_cons_self d tl)
      have hp : strictEqOpt (idOf d) (some (.vstr (toStringJS ((idOf d).getD .vnull)))) = true := by
        rw [hsd]
        show strictEqOpt (some (.vstr sd)) (some (.vstr sd)) = true
        simp [strictEqOpt, strictEqV]
      rw [List.find?_cons, hp]
    · obtain ⟨sd, hsd⟩ := hids h (List.mem_cons_self h tl)
      obtain ⟨sdd, hsdd⟩ := hids d (List.mem_cons_of_mem h hdtl)
      have hp : strictEqOpt (idOf h) (some (.vstr (toStringJS ((idOf d).getD .vnull)))) = false := by
        rw [hsd, hsdd]
        show strictEqOpt (some (.vstr sd)) (some (.vstr sdd)) = false
        simp only [strictEqOpt, strictEqV, beq_eq_false_iff_ne]
        intro hc
        subst hc
        apply hnodup.1
        rw [hsd, ← hsdd]
        exact List.mem_map_of_mem idOf hdtl
      rw [List.find?_cons, hp]
      exact ih (fun x hx => hids x (List.mem_cons_of_mem h hx)) hnodup.2 hdtl

theorem filterMap_some_self {α : Type} (f : α → Option α) (l : List α)
    (h : ∀ x ∈ l, f x = some x) : l.filterMap f = l := by
  induction l with
  | nil => rfl
  | cons x t ih =>
    rw [List.filterMap_cons, h x (List.mem_cons_self x t),
        ih (fun y hy => h y (List.mem_cons_of_mem x hy))]

theorem createFullTextIndex_baseStore (ds : List Doc) (fields : List String) :
    createFullTextIndex (baseStore ds) fields =
      { baseStore ds with
        fullTextIndexedFields := dedupFirst fields [],
        fullTextIndex := ds.foldl (fun ft d =>
          indexDocumentFullText ft d (dedupFirst fields [])) [],
        fileFullText := some (ds.foldl (fun ft d =>
          indexDocumentFullText ft d (dedupFirst fields [])) []) } := rfl

end Farusql

namespace Farusql

theorem lookupAssoc_builtFT (ds : List Doc) (F : List String)
    (hids : ∀ d ∈ ds, ∃ sd, idOf d = some (.vstr sd))
    (htr : ∀ d ∈ ds, optTruthy (idOf d) = true)
    (hnodup : (ds.map idOf).Nodup) (t : String) :
    lookupAssoc (ds.foldl (fun ft d => indexDocumentFullText ft d F) []) t =
      if ds.filter (fun d => docHasToken d F t) = [] then none
      else some ((ds.filter (fun d => docHasToken d F t)).map
        (fun d => toStringJS ((idOf d).getD .vnull))) := by
  rw [lookupAssoc_buildFT F t ds htr []]
  by_cases hfe : ds.filter (fun d => docHasToken d F t) = []
  · rw [if_pos hfe, if_pos hfe]
    rfl
  · rw [if_neg hfe, if_neg hfe]
    have hnd : ((ds.filter (fun d => docHasToken d F t)).map
        (fun d => toStringJS ((idOf d).getD .vnull))).Nodup :=
      List.Nodup.sublist ((List.filter_sublist ds).map _) (sids_nodup ds hids hnodup)
    have h0 : ((lookupAssoc ([] : List (String × List String)) t).getD []) = [] := rfl
    rw [h0, foldl_addUniq_fresh _ [] (fun k _ hmem => List.not_mem_nil k hmem) hnd,
        List.nil_append]

/-- C7: fullTextSearch is conjunctive.  Over any collection whose documents
carry distinct non-empty string _ids, after createFullTextIndex(fields) a
query with at least one token returns exactly the documents that contain
every query token in some indexed text field (in collection order); in
particular a query token absent from every document makes the result empty,
because its posting lookup fails and the token loop short-circuits. -/
theorem fulltext_search_conjunctive (ds : List Doc) (fields : List String) (q : String)
    (hids : ∀ d ∈ ds, ∃ sd, idOf d = some (.vstr sd) ∧ sd ≠ "")
    (hnodup : (ds.map idOf).Nodup)
    (hq : tokenizeText q ≠ []) :
    (fullTextSearch (createFullTextIndex (baseStore ds) fields) q).2 =
      ds.filter (fun d => (tokenizeText q).all
        (fun t => docHasToken d (dedupFirst fields []) t)) := by
  have hids' : ∀ d ∈ ds, ∃ sd, idOf d = some (.vstr sd) := by
    intro d hd
    obtain ⟨sd, hsd, _⟩ := hids d hd
    exact ⟨sd, hsd⟩
  have htr : ∀ d ∈ ds, optTruthy (idOf d) = true := by
    intro d hd
    obtain ⟨sd, hsd, hne⟩ := hids d hd
    rw [hsd]
    simpa [optTruthy, truthy] using hne
  have hpost := lookupAssoc_builtFT ds (dedupFirst fields []) hids' htr hnodup
  rw [createFullTextIndex_baseStore]
  unfold fullTextSearch
  rw [loadData_loaded _ rfl, loadFullTextIndex_loaded _ rfl]
  rw [if_neg hq]
  dsimp only
  cases hqts : tokenizeText q with
  | nil => exact absurd hqts hq
  | cons t0 rest =>
    have hstep : ftsIds (ds.foldl (fun ft d =>
        indexDocumentFullText ft d (dedupFirst fields [])) []) (t0 :: rest) none =
        match lookupAssoc (ds.foldl (fun ft d =>
            indexDocumentFullText ft d (dedupFirst fields [])) []) t0 with
        | none => []
        | some ids => ftsIds (ds.foldl (fun ft d =>
            indexDocumentFullText ft d (dedupFirst fields [])) []) rest (some ids) := rfl
    by_cases hf0 : ds.filter (fun d => docHasToken d (dedupFirst fields []) t0) = []
    · have hl0 : lookupAssoc (ds.foldl (fun ft d =>
          indexDocumentFullText ft d (dedupFirst fields [])) []) t0 = none := by
        rw [hpost t0, if_pos hf0]
      rw [hstep, hl0]
      have hrhs : ds.filter (fun d => (t0 :: rest).all
          (fun t => docHasToken d (dedupFirst fields []) t)) = [] := by
        refine List.filter_eq_nil.mpr ?_
        intro d hd hc
        rw [List.all_cons, Bool.and_eq_true] at hc
        have : d ∈ ds.filter (fun d => docHasToken d (dedupFirst fields []) t0) :=
          List.mem_filter.mpr ⟨hd, hc.1⟩
        rw [hf0] at this
        exact List.not_mem_nil d this
      rw [hrhs]
      rfl
    · have hl0 : lookupAssoc (ds.foldl (fun ft d =>
          indexDocumentFullText ft d (dedupFirst fields [])) []) t0 =
          some ((ds.filter (fun d => docHasToken d (dedupFirst fields []) t0)).map
            (fun d => toStringJS ((idOf d).getD .vnull))) := by
        rw [hpost t0, if_neg hf0]
      rw [hstep, hl0]
      dsimp only
      rw [ftsIds_invariant ds (dedupFirst fields []) _ hids' hnodup hpost rest
        (fun d => docHasToken d (dedupFirst fields []) t0)]
      have hLsub : ∀ d ∈ ds.filter (fun d =>
          docHasToken d (dedupFirst fields []) t0 &&
          rest.all (fun t => docHasToken d (dedupFirst fields []) t)), d ∈ ds := by
        intro d hd
        exact (List.mem_filter.mp hd).1
      have hbd : (baseStore ds).data = ds := rfl
      have hsde : (baseStore ds).softDeleteEnabled = false := rfl
      have hsdw : (baseStore ds).showDeleted = false := rfl
      rw [hbd, hsde, hsdw]
      rw [List.filterMap_map]
      have hfm : (ds.filter (fun d => docHasToken d (dedupFirst fields []) t0 &&
          rest.all (fun t => docHasToken d (dedupFirst fields []) t))).filterMap
            ((fun i => ds.find? (fun d => strictEqOpt (idOf d) (some (.vstr i)))) ∘
              (fun d => toStringJS ((idOf d).getD .vnull))) =
          ds.filter (fun d => docHasToken d (dedupFirst fields []) t0 &&
            rest.all (fun t => docHasToken d (dedupFirst fields []) t)) := by
        refine filterMap_some_self _ _ ?_
        intro d hd
        exact find_by_sid ds hids' hnodup d (hLsub d hd)
      rw [hfm]
      have hvis : ∀ (l : List Doc), l.filter (fun d =>
          ¬(false = true) ∨ false = true ∨ ¬isDeletedDoc d = true) = l := by
        intro l
        refine List.filter_eq_self.mpr ?_
        intro d _
        simp
      rw [hvis]
      refine List.filter_congr ?_
      intro d _
      rw [List.all_cons]

end Farusql

namespace Farusql

/-- Witness for C7 at the spec's two-document example: searching "beta"
returns both documents, searching "alpha gamma" returns neither. -/
theorem fulltext_search_conjunctive_witness :
    ((fullTextSearch (createFullTextIndex (baseStore c7ds) ["txt"]) "beta").2 =
      c7ds.filter (fun d => (tokenizeText "beta").all
        (fun t => docHasToken d (dedupFirst ["txt"] []) t))) ∧
    ((fullTextSearch (createFullTextIndex (baseStore c7ds) ["txt"]) "alpha gamma").2 =
      c7ds.filter (fun d => (tokenizeText "alpha gamma").all
        (fun t => docHasToken d (dedupFirst ["txt"] []) t))) ∧
    (fullTextSearch c7store "beta").2 = c7ds ∧
    (fullTextSearch c7store "alpha gamma").2 = [] := by
  have hids : ∀ d ∈ c7ds, ∃ sd, idOf d = some (.vstr sd) ∧ sd ≠ "" := by
    intro d hd
    simp only [c7ds, List.mem_cons, List.not_mem_nil, or_false] at hd
    rcases hd with rfl | rfl
    · exact ⟨"d1", rfl, by decide⟩
    · exact ⟨"d2", rfl, by decide⟩
  refine ⟨fulltext_search_conjunctive c7ds ["txt"] "beta" hids (by decide) (by decide),
          fulltext_search_conjunctive c7ds ["txt"] "alpha gamma" hids (by decide) (by decide),
          by decide, by decide⟩

end Farusql

namespace Farusql

theorem kcmp_asym (a b : Option Int) (h : kcmp a b < 0) : 0 ≤ kcmp b a := by
  cases a with
  | none =>
    cases b with
    | none => simp only [kcmp] at h; omega
    | some y => simp only [kcmp] at h; omega
  | some x =>
    cases b with
    | none => simp only [kcmp]; omega
    | some y =>
      simp only [kcmp] at h ⊢
      by_cases hxy : x = y
      · rw [if_pos hxy] at h; omega
      · rw [if_neg hxy] at h
        by_cases hlt : x < y
        · have hyx : ¬y = x := fun hh => hxy hh.symm
          have hnlt : ¬y < x := by omega
          rw [if_neg hyx, if_neg hnlt]
          omega
        · rw [if_neg hlt] at h; omega

theorem kcmp_zero_iff (a b : Option Int) : kcmp a b = 0 ↔ a = b := by
  cases a with
  | none =>
    cases b with
    | none => simp [kcmp]
    | some y => simp only [kcmp]; constructor <;> intro hh <;> [omega; exact Option.noConfusion hh]
  | some x =>
    cases b with
    | none => simp only [kcmp]; constructor <;> intro hh <;> [omega; exact Option.noConfusion hh]
    | some y =>
      simp only [kcmp]
      by_cases hxy : x = y
      · simp [hxy]
      · rw [if_neg hxy]
        by_cases hlt : x < y
        · rw [if_pos hlt]
          constructor <;> intro hh
          · omega
          · exact absurd (Option.some.inj hh) hxy
        · rw [if_neg hlt]
          constructor <;> intro hh
          · omega
          · exact absurd (Option.some.inj hh) hxy

theorem kcmp_trans2 (x y z : Option Int) (h1 : kcmp x y < 0) (h2 : 0 ≤ kcmp z y) :
    0 ≤ kcmp z x := by
  cases x with
  | none =>
    cases y with
    | none => simp only [kcmp] at h1; omega
    | some v => simp only [kcmp] at h1; omega
  | some u =>
    cases y with
    | none =>
      cases z with
      | none => simp only [kcmp]; omega
      | some w =>
        simp only [kcmp] at h2
        by_cases h : w = u
        · simp only [kcmp, if_pos h]; omega
        · simp only [kcmp, if_neg h]
          omega
    | some v =>
      simp only [kcmp] at h1
      by_cases huv : u = v
      · rw [if_pos huv] at h1; omega
      · rw [if_neg huv] at h1
        by_cases hlt : u < v
        · cases z with
          | none => simp only [kcmp]; omega
          | some w =>
            simp only [kcmp] at h2 ⊢
            by_cases hwv : w = v
            · subst hwv
              have hwu : ¬w = u := fun hh => huv hh.symm
              rw [if_neg hwu]
              have : ¬w < u := by omega
              rw [if_neg this]
              omega
            · rw [if_neg hwv] at h2
              by_cases hwlt : w < v
              · rw [if_pos hwlt] at h2; omega
              · by_cases hwu : w = u
                · subst hwu; omega
                · rw [if_neg hwu]
                  have : ¬w < u := by omega
                  rw [if_neg this]
                  omega
        · rw [if_neg hlt] at h1; omega

end Farusql

namespace Farusql

theorem kcmp_refl (a : Option Int) : kcmp a a = 0 := by
  cases a with
  | none => rfl
  | some x => simp [kcmp]

theorem insertSorted_mem (cmp : Doc → Doc → Int) (x : Doc) (l : List Doc) (z : Doc) :
    z ∈ insertSorted cmp x l ↔ z = x ∨ z ∈ l := by
  induction l with
  | nil => simp [insertSorted]
  | cons y ys ih =>
    by_cases h : cmp x y < 0
    · simp only [insertSorted, if_pos h, List.mem_cons]
    · simp only [insertSorted, if_neg h, List.mem_cons, ih]
      tauto

theorem insertSorted_sorted (c : Doc → Doc → Int)
    (hasym : ∀ a b, c a b < 0 → 0 ≤ c b a)
    (htrans2 : ∀ x y z, c x y < 0 → 0 ≤ c z y → 0 ≤ c z x)
    (x : Doc) (l : List Doc)
    (hs : l.Pairwise (fun a b => 0 ≤ c b a)) :
    (insertSorted c x l).Pairwise (fun a b => 0 ≤ c b a) := by
  induction l with
  | nil => simp [insertSorted]
  | cons y ys ih =>
    rw [List.pairwise_cons] at hs
    by_cases h : c x y < 0
    · have hres : insertSorted c x (y :: ys) = x :: y :: ys := by
        simp [insertSorted, h]
      rw [hres, List.pairwise_cons]
      refine ⟨?_, List.pairwise_cons.mpr hs⟩
      intro b hb
      rcases List.mem_cons.mp hb with rfl | hbys
      · exact hasym _ _ h
      · exact htrans2 x y b h (hs.1 b hbys)
    · have hres : insertSorted c x (y :: ys) = y :: insertSorted c x ys := by
        simp [insertSorted, h]
      rw [hres, List.pairwise_cons]
      refine ⟨?_, ih hs.2⟩
      intro b hb
      rcases (insertSorted_mem _ x ys b).mp hb with rfl | hbys
      · omega
      · exact hs.1 b hbys

theorem stableSort_sorted (c : Doc → Doc → Int)
    (hasym : ∀ a b, c a b < 0 → 0 ≤ c b a)
    (htrans2 : ∀ x y z, c x y < 0 → 0 ≤ c z y → 0 ≤ c z x)
    (l : List Doc) :
    (stableSort c l).Pairwise (fun a b => 0 ≤ c b a) := by
  have hgen : ∀ (l acc : List Doc), acc.Pairwise (fun a b => 0 ≤ c b a) →
      (l.foldl (fun acc x => insertSorted c x acc) acc).Pairwise
        (fun a b => 0 ≤ c b a) := by
    intro l
    induction l with
    | nil => intro acc h; exact h
    | cons x xs ih =>
      intro acc h
      exact ih _ (insertSorted_sorted c hasym htrans2 x acc h)
  exact hgen l [] List.Pairwise.nil

theorem stableSort_mem (cmp : Doc → Doc → Int) (l : List Doc) (z : Doc) :
    z ∈ stableSort cmp l ↔ z ∈ l := by
  have hgen : ∀ (l acc : List Doc),
      (z ∈ l.foldl (fun acc x => insertSorted cmp x acc) acc ↔ z ∈ acc ∨ z ∈ l) := by
    intro l
    induction l with
    | nil => intro acc; simp
    | cons x xs ih =>
      intro acc
      rw [show (x :: xs).foldl (fun acc x => insertSorted cmp x acc) acc =
          xs.foldl (fun acc x => insertSorted cmp x acc) (insertSorted cmp x acc) from rfl]
      rw [ih, insertSorted_mem]
      simp [List.mem_cons]
      tauto
  have := hgen l []
  simpa using this

end Farusql

namespace Farusql

theorem insertSorted_eq_takeDrop (cmp : Doc → Doc → Int) (x : Doc) (l : List Doc) :
    insertSorted cmp x l =
      l.takeWhile (fun y => !decide (cmp x y < 0)) ++
        x :: l.dropWhile (fun y => !decide (cmp x y < 0)) := by
  induction l with
  | nil => rfl
  | cons y ys ih =>
    by_cases h : cmp x y < 0
    · simp only [insertSorted, if_pos h, List.takeWhile_cons, List.dropWhile_cons,
                 decide_eq_true h, Bool.not_true, List.nil_append]
      simp
    · have hd : decide (cmp x y < 0) = false := by
        simpa using h
      simp only [insertSorted, if_neg h, List.takeWhile_cons, List.dropWhile_cons, hd,
                 Bool.not_false, List.cons_append, ih]
      simp

theorem dropWhile_head_false {α : Type} (p : α → Bool) (l : List α) (z0 : α) (rest : List α)
    (h : l.dropWhile p = z0 :: rest) : p z0 = false := by
  induction l with
  | nil => simp [List.dropWhile] at h
  | cons a t ih =>
    by_cases hp : p a = true
    · rw [List.dropWhile_cons, if_pos hp] at h
      exact ih h
    · rw [List.dropWhile_cons, if_neg hp] at h
      injection h with h1 _
      subst h1
      cases hb : p a
      · rfl
      · exact absurd hb hp

theorem insertSorted_filter_key (c : Doc → Doc → Int) (k : Doc → Option Int)
    (hzero : ∀ a b, c a b = 0 ↔ k a = k b)
    (hcongrL : ∀ a a2 b, k a = k a2 → c a b = c a2 b)
    (x : Doc) (l : List Doc) (kv : Option Int)
    (hs : l.Pairwise (fun a b => 0 ≤ c b a)) :
    (insertSorted c x l).filter (fun d => k d = kv) =
      if k x = kv then l.filter (fun d => k d = kv) ++ [x]
      else l.filter (fun d => k d = kv) := by
  rw [insertSorted_eq_takeDrop, List.filter_append, List.filter_cons]
  have hfl : l.filter (fun d => k d = kv) =
      (l.takeWhile (fun y => !decide (c x y < 0))).filter (fun d => k d = kv) ++
      (l.dropWhile (fun y => !decide (c x y < 0))).filter (fun d => k d = kv) := by
    rw [← List.filter_append, List.takeWhile_append_dropWhile]
  by_cases hx : k x = kv
  · have hdrop : (l.dropWhile (fun y => !decide (c x y < 0))).filter
        (fun d => k d = kv) = [] := by
      refine List.filter_eq_nil.mpr ?_
      intro z hz hkz
      have hkz2 : k z = kv := of_decide_eq_true hkz
      cases hD : l.dropWhile (fun y => !decide (c x y < 0)) with
      | nil => rw [hD] at hz; exact List.not_mem_nil z hz
      | cons z0 rest =>
        have hz0 : c x z0 < 0 := by
          have := dropWhile_head_false (fun y => !decide (c x y < 0)) l z0 rest hD
          simpa using this
        have hsorted : (z0 :: rest).Pairwise (fun a b => 0 ≤ c b a) := by
          rw [← hD]
          exact hs.sublist (List.dropWhile_sublist _)
        rw [hD] at hz
        rcases List.mem_cons.mp hz with rfl | hzrest
        · have h0 : c x z = 0 := (hzero x z).mpr (hx.trans hkz2.symm)
          omega
        · have hge : 0 ≤ c z z0 :=
            (List.pairwise_cons.mp hsorted).1 z hzrest
          have heq : c z z0 = c x z0 := hcongrL z x z0 (hkz2.trans hx.symm)
          omega
    rw [hdrop, if_pos hx, if_pos (by simpa using hx), hfl, hdrop, List.append_nil]
  · rw [if_neg hx, if_neg (by simpa using hx), ← List.filter_append,
        List.takeWhile_append_dropWhile]

theorem stableSort_filter_key (c : Doc → Doc → Int) (k : Doc → Option Int)
    (hasym : ∀ a b, c a b < 0 → 0 ≤ c b a)
    (htrans2 : ∀ x y z, c x y < 0 → 0 ≤ c z y → 0 ≤ c z x)
    (hzero : ∀ a b, c a b = 0 ↔ k a = k b)
    (hcongrL : ∀ a a2 b, k a = k a2 → c a b = c a2 b)
    (l : List Doc) (kv : Option Int) :
    (stableSort c l).filter (fun d => k d = kv) = l.filter (fun d => k d = kv) := by
  have hgen : ∀ (l acc : List Doc), acc.Pairwise (fun a b => 0 ≤ c b a) →
      (l.foldl (fun acc x => insertSorted c x acc) acc).filter (fun d => k d = kv) =
        acc.filter (fun d => k d = kv) ++ l.filter (fun d => k d = kv) := by
    intro l
    induction l with
    | nil => intro acc _; simp
    | cons x xs ih =>
      intro acc hacc
      rw [show (x :: xs).foldl (fun acc x => insertSorted c x acc) acc =
          xs.foldl (fun acc x => insertSorted c x acc) (insertSorted c x acc) from rfl]
      rw [ih _ (insertSorted_sorted c hasym htrans2 x acc hacc)]
      rw [insertSorted_filter_key c k hzero hcongrL x acc kv hacc, List.filter_cons]
      by_cases hx : k x = kv
      · rw [if_pos hx, if_pos (by simpa using hx)]
        simp
      · rw [if_neg hx, if_neg (by simpa using hx)]
  have := hgen l [] List.Pairwise.nil
  simpa [stableSort] using this
end Farusql

namespace Farusql

theorem jsLtOpt_num (n m : Int) :
    jsLtOpt (some (.vnum n)) (some (.vnum m)) = some (decide (n < m)) := rfl

theorem cmpDocs_asc_key (f : String) (a b : Doc)
    (ha : numOrNull (getValueByDot a f)) (hb : numOrNull (getValueByDot b f)) :
    cmpDocs "asc" f a b = kcmp (ordKey (getValueByDot a f)) (ordKey (getValueByDot b f)) := by
  unfold cmpDocs
  dsimp only
  rcases ha with ⟨n, hn⟩ | hn <;> rcases hb with ⟨m, hm⟩ | hm <;> rw [hn, hm]
  · simp only [ordKey]
    by_cases hnm : n = m
    · subst hnm
      simp [strictEqOpt, strictEqV, kcmp]
    · simp only [strictEqOpt, strictEqV, beq_iff_eq, hnm, if_false, jsLtOpt_num]
      simp only [kcmp, if_neg hnm]
      by_cases hlt : n < m <;> simp [hlt, hnm]
  · simp [strictEqOpt, strictEqV, ordKey, kcmp]
  · simp [strictEqOpt, strictEqV, ordKey, kcmp]
  · simp [strictEqOpt, strictEqV, ordKey, kcmp]

theorem cmpDocs_desc_key (f : String) (a b : Doc)
    (ha : numOrNull (getValueByDot a f)) (hb : numOrNull (getValueByDot b f)) :
    cmpDocs "desc" f a b = kcmp (ordKey (getValueByDot b f)) (ordKey (getValueByDot a f)) := by
  unfold cmpDocs
  dsimp only
  rcases ha with ⟨n, hn⟩ | hn <;> rcases hb with ⟨m, hm⟩ | hm <;> rw [hn, hm]
  · simp only [ordKey]
    by_cases hnm : n = m
    · subst hnm
      simp [strictEqOpt, strictEqV, kcmp]
    · have hmn : ¬m = n := fun hh => hnm hh.symm
      simp only [strictEqOpt, strictEqV, beq_iff_eq, hnm, if_false, jsLtOpt_num]
      simp only [kcmp, if_neg hmn]
      by_cases hlt : m < n <;> simp [hlt, hnm, hmn]
  · simp [strictEqOpt, strictEqV, ordKey, kcmp]
  · simp [strictEqOpt, strictEqV, ordKey, kcmp]
  · simp [strictEqOpt, strictEqV, ordKey, kcmp]

end Farusql

namespace Farusql

theorem insertSorted_congr (cmp cmp' : Doc → Doc → Int) (x : Doc) (l : List Doc)
    (h : ∀ y ∈ l, cmp x y = cmp' x y) :
    insertSorted cmp x l = insertSorted cmp' x l := by
  induction l with
  | nil => rfl
  | cons y ys ih =>
    have hy := h y (List.mem_cons_self y ys)
    by_cases hc : cmp x y < 0
    · rw [show insertSorted cmp x (y :: ys) = x :: y :: ys from if_pos hc,
          show insertSorted cmp' x (y :: ys) = x :: y :: ys from if_pos (hy ▸ hc)]
    · rw [show insertSorted cmp x (y :: ys) = y :: insertSorted cmp x ys from if_neg hc,
          show insertSorted cmp' x (y :: ys) = y :: insertSorted cmp' x ys from
            if_neg (hy ▸ hc),
          ih (fun z hz => h z (List.mem_cons_of_mem y hz))]

theorem stableSort_congr (cmp cmp' : Doc → Doc → Int) (l : List Doc)
    (h : ∀ a ∈ l, ∀ b ∈ l, cmp a b = cmp' a b) :
    stableSort cmp l = stableSort cmp' l := by
  have hgen : ∀ (rest : List Doc), (∀ a ∈ rest, ∀ b ∈ rest, cmp a b = cmp' a b) →
      ∀ (acc : List Doc), (∀ a ∈ rest, ∀ b ∈ acc, cmp a b = cmp' a b) →
      rest.foldl (fun acc x => insertSorted cmp x acc) acc =
        rest.foldl (fun acc x => insertSorted cmp' x acc) acc := by
    intro rest
    induction rest with
    | nil => intro _ acc _; rfl
    | cons x xs ih =>
      intro hrest acc hacc
      have hins : insertSorted cmp x acc = insertSorted cmp' x acc :=
        insertSorted_congr cmp cmp' x acc
          (fun y hy => hacc x (List.mem_cons_self x xs) y hy)
      show xs.foldl (fun acc x => insertSorted cmp x acc) (insertSorted cmp x acc) =
        xs.foldl (fun acc x => insertSorted cmp' x acc) (insertSorted cmp' x acc)
      rw [hins]
      refine ih (fun a ha b hb => hrest a (List.mem_cons_of_mem x ha) b
        (List.mem_cons_of_mem x hb)) (insertSorted cmp' x acc) ?_
      intro a ha b hb
      rcases (insertSorted_mem cmp' x acc b).mp hb with rfl | hbacc
      · exact hrest a (List.mem_cons_of_mem b ha) b (List.mem_cons_self b xs)
      · exact hacc a (List.mem_cons_of_mem x ha) b hbacc
  exact hgen l h [] (fun a _ b hb => absurd hb (List.not_mem_nil b))

end Farusql

namespace Farusql

theorem get_orderBy (ds : List Doc) (f dir : String) (hf : strOptTruthy (some f) = true) :
    (get (orderByQ (baseStore ds) f dir)).2 = stableSort (cmpDocs (strToLower dir) f) ds := by
  unfold get
  rw [loadData_loaded _ rfl, loadIndexes_loaded _ rfl]
  dsimp only
  rw [show (orderByQ (baseStore ds) f dir).softDeleteEnabled = false from rfl]
  rw [if_neg (by simp)]
  rw [show indexPrefilter (orderByQ (baseStore ds) f dir)
    (explainQuery (orderByQ (baseStore ds) f dir)).usedIndexes
    (orderByQ (baseStore ds) f dir).data = (orderByQ (baseStore ds) f dir,
      (orderByQ (baseStore ds) f dir).data) from rfl]
  dsimp only
  have hfilt : (orderByQ (baseStore ds) f dir).data.filter (fun d =>
      (orderByQ (baseStore ds) f dir).wheres.all (testWhole d)) =
      (orderByQ (baseStore ds) f dir).data := by
    refine List.filter_eq_self.mpr ?_
    intro d _
    rfl
  rw [hfilt]
  rw [show (orderByQ (baseStore ds) f dir).orderByField = some f from rfl]
  rw [if_pos hf]
  rw [show (orderByQ (baseStore ds) f dir).skipCount = (0 : Int) from rfl]
  rw [if_neg (by omega)]
  rw [show (orderByQ (baseStore ds) f dir).limitCount = (none : Option Int) from rfl]
  rfl

end Farusql

namespace Farusql

theorem kcmp_trans2x (x y z : Option Int) (h1 : kcmp y x < 0) (h2 : 0 ≤ kcmp y z) :
    0 ≤ kcmp x z := by
  by_cases h : 0 ≤ kcmp x z
  · exact h
  · exfalso
    have hxz : kcmp x z < 0 := by omega
    have := kcmp_trans2 x z y hxz h2
    omega

theorem nullish_ordKey (v : Option Value) (h : numOrNull v) :
    nullishV v = true ↔ ordKey v = none := by
  rcases h with ⟨n, hn⟩ | hn <;> rw [hn] <;> simp [nullishV, ordKey]

theorem numOrNull_eq_iff_key (w v : Option Value) (hw : numOrNull w) (hv : numOrNull v) :
    w = v ↔ ordKey w = ordKey v := by
  rcases hw with ⟨n, hn⟩ | hn <;> rcases hv with ⟨m, hm⟩ | hm <;> rw [hn, hm] <;>
    simp [ordKey]

end Farusql

namespace Farusql

/-- C8 (amended): ordering restricted to consistently comparable field values.
When every document's ordered field holds an integer or null, ascending order
puts the null documents after all numeric ones and descending order before
them, and the sort is stable: for every value, the documents holding it keep
their original relative order.  (The claim's unconditional stability promise
is refuted by the counterexample below: with mixed string/number values the
comparator — locale comparison for string pairs, numeric coercion otherwise —
is cyclic, and the insertion sort then reorders two documents holding the
identical value "09".) -/
theorem orderBy_nulls_stable_amended (f : String) (ds : List Doc)
    (hf : strOptTruthy (some f) = true)
    (hvals : ∀ d ∈ ds, numOrNull (getValueByDot d f)) :
    ((get (orderByQ (baseStore ds) f "asc")).2.Pairwise
       (fun a b => nullishV (getValueByDot a f) = true →
                   nullishV (getValueByDot b f) = true)) ∧
    ((get (orderByQ (baseStore ds) f "desc")).2.Pairwise
       (fun a b => nullishV (getValueByDot b f) = true →
                   nullishV (getValueByDot a f) = true)) ∧
    (∀ v : Option Value,
       (get (orderByQ (baseStore ds) f "asc")).2.filter
           (fun d => getValueByDot d f = v) =
         ds.filter (fun d => getValueByDot d f = v)) ∧
    (∀ v : Option Value,
       (get (orderByQ (baseStore ds) f "desc")).2.filter
           (fun d => getValueByDot d f = v) =
         ds.filter (fun d => getValueByDot d f = v)) := by
  have hasc : (get (orderByQ (baseStore ds) f "asc")).2 =
      stableSort (fun a b =>
        kcmp (ordKey (getValueByDot a f)) (ordKey (getValueByDot b f))) ds := by
    rw [get_orderBy ds f "asc" hf, show strToLower "asc" = "asc" from rfl]
    exact stableSort_congr _ _ ds
      (fun a ha b hb => cmpDocs_asc_key f a b (hvals a ha) (hvals b hb))
  have hdesc : (get (orderByQ (baseStore ds) f "desc")).2 =
      stableSort (fun a b =>
        kcmp (ordKey (getValueByDot b f)) (ordKey (getValueByDot a f))) ds := by
    rw [get_orderBy ds f "desc" hf, show strToLower "desc" = "desc" from rfl]
    exact stableSort_congr _ _ ds
      (fun a ha b hb => cmpDocs_desc_key f a b (hvals a ha) (hvals b hb))
  have hasymA : ∀ a b : Doc, kcmp (ordKey (getValueByDot a f)) (ordKey (getValueByDot b f)) < 0 →
      0 ≤ kcmp (ordKey (getValueByDot b f)) (ordKey (getValueByDot a f)) :=
    fun a b h => kcmp_asym _ _ h
  have htransA : ∀ x y z : Doc,
      kcmp (ordKey (getValueByDot x f)) (ordKey (getValueByDot y f)) < 0 →
      0 ≤ kcmp (ordKey (getValueByDot z f)) (ordKey (getValueByDot y f)) →
      0 ≤ kcmp (ordKey (getValueByDot z f)) (ordKey (getValueByDot x f)) :=
    fun x y z h1 h2 => kcmp_trans2 _ _ _ h1 h2
  have hasymD : ∀ a b : Doc, kcmp (ordKey (getValueByDot b f)) (ordKey (getValueByDot a f)) < 0 →
      0 ≤ kcmp (ordKey (getValueByDot a f)) (ordKey (getValueByDot b f)) :=
    fun a b h => kcmp_asym _ _ h
  have htransD : ∀ x y z : Doc,
      kcmp (ordKey (getValueByDot y f)) (ordKey (getValueByDot x f)) < 0 →
      0 ≤ kcmp (ordKey (getValueByDot y f)) (ordKey (getValueByDot z f)) →
      0 ≤ kcmp (ordKey (getValueByDot x f)) (ordKey (getValueByDot z f)) :=
    fun x y z h1 h2 => kcmp_trans2x _ _ _ h1 h2
  refine ⟨?_, ?_, ?_, ?_⟩
  · rw [hasc]
    have hsorted := stableSort_sorted _ hasymA htransA ds
    refine hsorted.imp_of_mem ?_
    intro a b ha hb hr hnull
    have hamem : a ∈ ds := (stableSort_mem _ ds a).mp ha
    have hbmem : b ∈ ds := (stableSort_mem _ ds b).mp hb
    have hka : ordKey (getValueByDot a f) = none :=
      (nullish_ordKey _ (hvals a hamem)).mp hnull
    cases hkb : ordKey (getValueByDot b f) with
    | none => exact (nullish_ordKey _ (hvals b hbmem)).mpr hkb
    | some m =>
      rw [hka, hkb] at hr
      simp [kcmp] at hr
  · rw [hdesc]
    have hsorted := stableSort_sorted _ hasymD htransD ds
    refine hsorted.imp_of_mem ?_
    intro a b ha hb hr hnull
    have hamem : a ∈ ds := (stableSort_mem _ ds a).mp ha
    have hbmem : b ∈ ds := (stableSort_mem _ ds b).mp hb
    have hkb : ordKey (getValueByDot b f) = none :=
      (nullish_ordKey _ (hvals b hbmem)).mp hnull
    cases hka : ordKey (getValueByDot a f) with
    | none => exact (nullish_ordKey _ (hvals a hamem)).mpr hka
    | some m =>
      rw [hka, hkb] at hr
      simp [kcmp] at hr
  · intro v
    rw [hasc]
    by_cases hnn : numOrNull v
    · have hpred : ∀ d ∈ ds, (decide (getValueByDot d f = v)) =
          (decide (ordKey (getValueByDot d f) = ordKey v)) := by
        intro d hd
        by_cases h : getValueByDot d f = v
        · simp [h, (numOrNull_eq_iff_key _ _ (hvals d hd) hnn).mp h]
        · have h2 : ¬ordKey (getValueByDot d f) = ordKey v :=
            fun hc => h ((numOrNull_eq_iff_key _ _ (hvals d hd) hnn).mpr hc)
          simp [h, h2]
      have hpred2 : ∀ d ∈ stableSort (fun a b =>
          kcmp (ordKey (getValueByDot a f)) (ordKey (getValueByDot b f))) ds,
          (decide (getValueByDot d f = v)) =
          (decide (ordKey (getValueByDot d f) = ordKey v)) :=
        fun d hd => hpred d ((stableSort_mem _ ds d).mp hd)
      rw [List.filter_congr hpred2, List.filter_congr hpred]
      exact stableSort_filter_key _ (fun d => ordKey (getValueByDot d f))
        hasymA htransA (fun a b => kcmp_zero_iff _ _)
        (fun a a2 b h => by
          have h2 : ordKey (getValueByDot a f) = ordKey (getValueByDot a2 f) := h
          show kcmp (ordKey (getValueByDot a f)) (ordKey (getValueByDot b f)) =
            kcmp (ordKey (getValueByDot a2 f)) (ordKey (getValueByDot b f))
          rw [h2])
        ds (ordKey v)
    · rw [List.filter_eq_nil.mpr ?_, List.filter_eq_nil.mpr ?_]
      · intro d hd hc
        exact hnn (of_decide_eq_true hc ▸ hvals d hd)
      · intro d hd hc
        exact hnn (of_decide_eq_true hc ▸
          hvals d ((stableSort_mem _ ds d).mp hd))
  · intro v
    rw [hdesc]
    by_cases hnn : numOrNull v
    · have hpred : ∀ d ∈ ds, (decide (getValueByDot d f = v)) =
          (decide (ordKey (getValueByDot d f) = ordKey v)) := by
        intro d hd
        by_cases h : getValueByDot d f = v
        · simp [h, (numOrNull_eq_iff_key _ _ (hvals d hd) hnn).mp h]
        · have h2 : ¬ordKey (getValueByDot d f) = ordKey v :=
            fun hc => h ((numOrNull_eq_iff_key _ _ (hvals d hd) hnn).mpr hc)
          simp [h, h2]
      have hpred2 : ∀ d ∈ stableSort (fun a b =>
          kcmp (ordKey (getValueByDot b f)) (ordKey (getValueByDot a f))) ds,
          (decide (getValueByDot d f = v)) =
          (decide (ordKey (getValueByDot d f) = ordKey v)) :=
        fun d hd => hpred d ((stableSort_mem _ ds d).mp hd)
      rw [List.filter_congr hpred2, List.filter_congr hpred]
      refine stableSort_filter_key _ (fun d => ordKey (getValueByDot d f))
        hasymD htransD ?_
        (fun a a2 b h => by
          have h2 : ordKey (getValueByDot a f) = ordKey (getValueByDot a2 f) := h
          show kcmp (ordKey (getValueByDot b f)) (ordKey (getValueByDot a f)) =
            kcmp (ordKey (getValueByDot b f)) (ordKey (getValueByDot a2 f))
          rw [h2]) ds (ordKey v)
      intro a b
      constructor
      · intro h
        exact ((kcmp_zero_iff _ _).mp h).symm
      · intro h
        exact (kcmp_zero_iff _ _).mpr h.symm
    · rw [List.filter_eq_nil.mpr ?_, List.filter_eq_nil.mpr ?_]
      · intro d hd hc
        exact hnn (of_decide_eq_true hc ▸ hvals d hd)
      · intro d hd hc
        exact hnn (of_decide_eq_true hc ▸
          hvals d ((stableSort_mem _ ds d).mp hd))

end Farusql

namespace Farusql

/-- C8 counterexample: four documents whose a-values "09", 5, "1", "09" make
the comparator cyclic (string pairs use locale comparison, mixed pairs
numeric coercion), and the insertion sort then flips the relative order of
the two documents that hold the identical value "09" — the promised
stability fails. -/
theorem orderBy_stability_counterexample :
    ((get (orderByQ c8cex "a" "asc")).2.filter
        (fun d => getValueByDot d "a" = some (.vstr "09"))).map idOf =
      [some (.vstr "i4"), some (.vstr "i1")] ∧
    (c8cex.data.filter (fun d => getValueByDot d "a" = some (.vstr "09"))).map idOf =
      [some (.vstr "i1"), some (.vstr "i4")] := by decide

/-- Witness for the amended C8 theorem at the spec's example collection
[{a:1}, {a:null}, {a:2}], whose ascending order also yields the promised
value sequence [1, 2, null]. -/
theorem orderBy_nulls_stable_amended_witness :
    ((get (orderByQ (baseStore [[("a", .vnum 1)], [("a", .vnull)], [("a", .vnum 2)]])
        "a" "asc")).2.Pairwise
       (fun a b => nullishV (getValueByDot a "a") = true →
                   nullishV (getValueByDot b "a") = true)) ∧
    ((get (orderByQ (baseStore [[("a", .vnum 1)], [("a", .vnull)], [("a", .vnum 2)]])
        "a" "desc")).2.Pairwise
       (fun a b => nullishV (getValueByDot b "a") = true →
                   nullishV (getValueByDot a "a") = true)) ∧
    (∀ v : Option Value,
       (get (orderByQ (baseStore [[("a", .vnum 1)], [("a", .vnull)], [("a", .vnum 2)]])
           "a" "asc")).2.filter (fun d => getValueByDot d "a" = v) =
         [[("a", .vnum 1)], [("a", .vnull)], [("a", .vnum 2)]].filter
           (fun d => getValueByDot d "a" = v)) ∧
    (∀ v : Option Value,
       (get (orderByQ (baseStore [[("a", .vnum 1)], [("a", .vnull)], [("a", .vnum 2)]])
           "a" "desc")).2.filter (fun d => getValueByDot d "a" = v) =
         [[("a", .vnum 1)], [("a", .vnull)], [("a", .vnum 2)]].filter
           (fun d => getValueByDot d "a" = v)) ∧
    (get (orderByQ c8ex "a" "asc")).2.map (fun d => getValueByDot d "a") =
      [some (.vnum 1), some (.vnum 2), some .vnull] := by
  have hmain := orderBy_nulls_stable_amended "a"
    [[("a", .vnum 1)], [("a", .vnull)], [("a", .vnum 2)]] (by decide)
    (by
      intro d hd
      simp only [List.mem_cons, List.not_mem_nil, or_false] at hd
      rcases hd with rfl | rfl | rfl
      · exact Or.inl ⟨1, rfl⟩
      · exact Or.inr rfl
      · exact Or.inl ⟨2, rfl⟩)
  exact ⟨hmain.1, hmain.2.1, hmain.2.2.1, hmain.2.2.2, by decide⟩

end Farusql
